import Mathlib

/-!
vera: a compile-time algebra over type sequences.

A shallow embedding of `vera.hpp`.  The header computes on C++ types during
template instantiation; here a type is a value of `Ty`, a class template with
type parameters only is a `Construct`, and every alias or helper of the header
is a function named after it.  An alias whose instantiation can be ill-formed
returns an `Option`; `none` stands for "fails to resolve".
-/

namespace Vera

/-- Class templates with type parameters only, the templates a template
template parameter `template<class...> class` of the header receives.  `pack`
is the header's own sequence carrier, `contains_helper` and `distinct_helper`
are the two helper templates the header itself passes to `inject`; `user n`
is a template of the program declared `template<class...>`, and
`templ n required variadic` is a template of the program declared with
`required` type parameters followed, when `variadic` holds, by a parameter
pack (`template<class, class>` is `templ n 2 false`). -/
inductive Construct where
  | pack
  | contains_helper
  | distinct_helper
  | user (id : Nat)
  | templ (id : Nat) (required : Nat) (variadic : Bool)
  deriving DecidableEq, Repr

/-- Types of the program.  `atom n` is a named type that is not a template
instantiation, `placeholder` is `struct placeholder`, `inst c args` is the
template `c` instantiated with `args` (the shape `T<TS...>`), `fn` is a
function type `R(Args...)`, `memfn` is `R(U::*)(Args...)` and `cmemfn` is
`R(U::*)(Args...) const`. -/
inductive Ty where
  | atom (id : Nat)
  | placeholder
  | inst (c : Construct) (args : List Ty)
  | fn (ret : Ty) (args : List Ty)
  | memfn (ret : Ty) (cls : Ty) (args : List Ty)
  | cmemfn (ret : Ty) (cls : Ty) (args : List Ty)

/- Identity of types (`std::is_same`), decided by structural comparison. -/
mutual
def Ty.decEq : (a b : Ty) → Decidable (a = b)
  | .atom m, .atom n => if h : m = n then isTrue (by rw [h]) else isFalse (by intro e; cases e; exact h rfl)
  | .placeholder, .placeholder => isTrue rfl
  | .inst c xs, .inst d ys =>
    if h : c = d then
      match Ty.decEqList xs ys with
      | isTrue h2 => isTrue (by rw [h, h2])
      | isFalse h2 => isFalse (by intro e; cases e; exact h2 rfl)
    else isFalse (by intro e; cases e; exact h rfl)
  | .fn r xs, .fn s ys =>
    match Ty.decEq r s, Ty.decEqList xs ys with
    | isTrue h1, isTrue h2 => isTrue (by rw [h1, h2])
    | isFalse h1, _ => isFalse (by intro e; cases e; exact h1 rfl)
    | _, isFalse h2 => isFalse (by intro e; cases e; exact h2 rfl)
  | .memfn r u xs, .memfn s v ys =>
    match Ty.decEq r s, Ty.decEq u v, Ty.decEqList xs ys with
    | isTrue h1, isTrue h2, isTrue h3 => isTrue (by rw [h1, h2, h3])
    | isFalse h1, _, _ => isFalse (by intro e; cases e; exact h1 rfl)
    | _, isFalse h2, _ => isFalse (by intro e; cases e; exact h2 rfl)
    | _, _, isFalse h3 => isFalse (by intro e; cases e; exact h3 rfl)
  | .cmemfn r u xs, .cmemfn s v ys =>
    match Ty.decEq r s, Ty.decEq u v, Ty.decEqList xs ys with
    | isTrue h1, isTrue h2, isTrue h3 => isTrue (by rw [h1, h2, h3])
    | isFalse h1, _, _ => isFalse (by intro e; cases e; exact h1 rfl)
    | _, isFalse h2, _ => isFalse (by intro e; cases e; exact h2 rfl)
    | _, _, isFalse h3 => isFalse (by intro e; cases e; exact h3 rfl)
  | .atom _, .placeholder => isFalse (by intro e; cases e)
  | .atom _, .inst _ _ => isFalse (by intro e; cases e)
  | .atom _, .fn _ _ => isFalse (by intro e; cases e)
  | .atom _, .memfn _ _ _ => isFalse (by intro e; cases e)
  | .atom _, .cmemfn _ _ _ => isFalse (by intro e; cases e)
  | .placeholder, .atom _ => isFalse (by intro e; cases e)
  | .placeholder, .inst _ _ => isFalse (by intro e; cases e)
  | .placeholder, .fn _ _ => isFalse (by intro e; cases e)
  | .placeholder, .memfn _ _ _ => isFalse (by intro e; cases e)
  | .placeholder, .cmemfn _ _ _ => isFalse (by intro e; cases e)
  | .inst _ _, .atom _ => isFalse (by intro e; cases e)
  | .inst _ _, .placeholder => isFalse (by intro e; cases e)
  | .inst _ _, .fn _ _ => isFalse (by intro e; cases e)
  | .inst _ _, .memfn _ _ _ => isFalse (by intro e; cases e)
  | .inst _ _, .cmemfn _ _ _ => isFalse (by intro e; cases e)
  | .fn _ _, .atom _ => isFalse (by intro e; cases e)
  | .fn _ _, .placeholder => isFalse (by intro e; cases e)
  | .fn _ _, .inst _ _ => isFalse (by intro e; cases e)
  | .fn _ _, .memfn _ _ _ => isFalse (by intro e; cases e)
  | .fn _ _, .cmemfn _ _ _ => isFalse (by intro e; cases e)
  | .memfn _ _ _, .atom _ => isFalse (by intro e; cases e)
  | .memfn _ _ _, .placeholder => isFalse (by intro e; cases e)
  | .memfn _ _ _, .inst _ _ => isFalse (by intro e; cases e)
  | .memfn _ _ _, .fn _ _ => isFalse (by intro e; cases e)
  | .memfn _ _ _, .cmemfn _ _ _ => isFalse (by intro e; cases e)
  | .cmemfn _ _ _, .atom _ => isFalse (by intro e; cases e)
  | .cmemfn _ _ _, .placeholder => isFalse (by intro e; cases e)
  | .cmemfn _ _ _, .inst _ _ => isFalse (by intro e; cases e)
  | .cmemfn _ _ _, .fn _ _ => isFalse (by intro e; cases e)
  | .cmemfn _ _ _, .memfn _ _ _ => isFalse (by intro e; cases e)
def Ty.decEqList : (as bs : List Ty) → Decidable (as = bs)
  | [], [] => isTrue rfl
  | [], _ :: _ => isFalse (by intro e; cases e)
  | _ :: _, [] => isFalse (by intro e; cases e)
  | a :: as, b :: bs =>
    match Ty.decEq a b, Ty.decEqList as bs with
    | isTrue h1, isTrue h2 => isTrue (by rw [h1, h2])
    | isFalse h1, _ => isFalse (by intro e; cases e; exact h1 rfl)
    | _, isFalse h2 => isFalse (by intro e; cases e; exact h2 rfl)
end


instance : DecidableEq Ty := Ty.decEq

/-- The type `pack<TS...>`. -/
abbrev pack (ts : List Ty) : Ty := Ty.inst Construct.pack ts

/-- Whether a type is a type sequence, an instantiation of `pack`. -/
def Ty.isPack : Ty → Bool
  | .inst .pack _ => true
  | _ => false

/-- The specializations of `unpack_helper` whose first argument is the
accumulator `pack<TS...>`: no further argument gives `pack<TS...>`, a further
`pack<Packed...>` is spliced into the accumulator, any other `U` is added to
its end. -/
def unpack_helper_acc (ts : List Ty) : List Ty → Ty
  | [] => pack ts
  | .inst .pack packed :: rest => unpack_helper_acc (ts ++ packed) rest
  | u :: rest => unpack_helper_acc (ts ++ [u]) rest

/-- The template `unpack_helper<TS...>`: an argument list that starts with a
`pack` is matched by one of the specializations, with that pack as the
accumulator; every other list goes through the primary template, which
restarts with `pack<>` in front. -/
def unpack_helper : List Ty → Ty
  | .inst .pack ts :: rest => unpack_helper_acc ts rest
  | items => unpack_helper_acc [] items

/-- The alias `unpack<TS...>`. -/
def unpack (items : List Ty) : Ty := unpack_helper items

/-- Whether an argument list fits the parameter list of a template, so that
the template-id `T<TS...>` is well-formed: `pack`, `distinct_helper` and
`user n` are declared `template<class...>` and take any list,
`contains_helper` is declared `template<class, class...>` and needs one
argument at least, `templ n required variadic` needs `required` arguments,
exactly or at least. -/
def Construct.fits : Construct → List Ty → Bool
  | .contains_helper, ts => decide (1 ≤ ts.length)
  | .templ _ required true, ts => decide (required ≤ ts.length)
  | .templ _ required false, ts => decide (ts.length = required)
  | _, _ => true

/-- The template-id `T<TS...>` written in a helper of the header: the type
when the arguments fit the parameter list of `T`, ill-formed otherwise. -/
def instantiate (t : Construct) (ts : List Ty) : Option Ty :=
  if t.fits ts then some (.inst t ts) else none

/-- The template `append_helper<T<TS...>, pack<Append...>>`, whose member is
`T<TS..., Append...>`; the primary template is declared only. -/
def append_helper : Ty → Ty → Option Ty
  | .inst c ts, .inst .pack app => instantiate c (ts ++ app)
  | _, _ => none

/-- The alias `append<T, TS...>`. -/
def append (t : Ty) (items : List Ty) : Option Ty :=
  append_helper t (unpack items)

/-- The template `prepend_helper<T<TS...>, pack<Prepend...>>`, whose member
is `T<Prepend..., TS...>`; the primary template is declared only. -/
def prepend_helper : Ty → Ty → Option Ty
  | .inst c ts, .inst .pack pre => instantiate c (pre ++ ts)
  | _, _ => none

/-- The alias `prepend<T, TS...>`. -/
def prepend (t : Ty) (items : List Ty) : Option Ty :=
  prepend_helper t (unpack items)

/-- The template `forward_helper<T, U<TS...>>`, whose member is `T<TS...>`;
the primary template is declared only. -/
def forward_helper (t : Construct) : Ty → Option Ty
  | .inst _ ts => instantiate t ts
  | _ => none

/-- The alias `forward<T, U>`. -/
def forward (t : Construct) (u : Ty) : Option Ty := forward_helper t u

/-- The template `extract_helper<T<TS...>>`; the primary template is
declared only. -/
def extract_helper : Ty → Option Ty
  | .inst _ ts => some (pack ts)
  | _ => none

/-- The alias `extract<T>`. -/
def extract (t : Ty) : Option Ty := extract_helper t

/-- The alias `inject<T, TS...>`. -/
def inject (t : Construct) (items : List Ty) : Option Ty :=
  forward t (unpack items)

/-- The specializations of `bind_helper` on the element lists of its two
`pack` arguments.  An empty fixed list gives `pack<PS...>`; a leading
`placeholder` takes the first supplied type, and with no supplied type left
the chosen specialization is declared only; any other leading type is kept
and the supplied list is passed on whole. -/
def bind_helper_packs : List Ty → List Ty → Option Ty
  | [], ps => some (pack ps)
  | .placeholder :: ts, p :: ps =>
    (bind_helper_packs ts ps).bind fun r => prepend r [p]
  | .placeholder :: _, [] => none
  | t :: ts, ps =>
    (bind_helper_packs ts ps).bind fun r => prepend r [t]

/-- The template `bind_helper<class, class>`.  Every defined specialization
has a `pack` as first argument, and the recursion ends in
`bind_helper<pack<>, pack<PS...>>`, so a second argument that is not a `pack`
never resolves. -/
def bind_helper : Ty → Ty → Option Ty
  | .inst .pack ts, .inst .pack ps => bind_helper_packs ts ps
  | _, _ => none

/-- The member alias `bind<T, TS...>::type<PS...>`. -/
def bind (t : Construct) (fixed supplied : List Ty) : Option Ty :=
  (bind_helper (unpack fixed) (unpack supplied)).bind (forward t)

/-- The template `transform_helper<F, class>`: the specialization for
`pack<TS...>` applies `F` to each element, the primary template gives
`pack<>`. -/
def transform_helper (F : Ty → Ty) : Ty → Ty
  | .inst .pack ts => pack (ts.map F)
  | _ => pack []

/-- The alias `transform<F, TS...>`. -/
def transform (F : Ty → Ty) (items : List Ty) : Ty :=
  transform_helper F (unpack items)

/-- The specializations of `filter_helper<P, pack<...>>` on the element list.
Both operands of `std::conditional_t` are instantiated, whichever is
selected. -/
def filter_helper_packs (P : Ty → Bool) : List Ty → Option Ty
  | [] => some (pack [])
  | t :: ts =>
    (filter_helper_packs P ts).bind fun r =>
      (prepend r [t]).bind fun kept =>
        some (if P t then kept else r)

/-- The template `filter_helper<P, class>`; the primary template is declared
only. -/
def filter_helper (P : Ty → Bool) : Ty → Option Ty
  | .inst .pack ts => filter_helper_packs P ts
  | _ => none

/-- The alias `filter<P, TS...>`. -/
def filter (P : Ty → Bool) (items : List Ty) : Option Ty :=
  filter_helper P (unpack items)

/-- The search of `contains_helper<T, U, TS...>` for `T` among the types that
follow it: `std::true_type` at the first `U` identical to `T`, the primary
template (`std::false_type`) when none is left. -/
def contains_helper_from (t : Ty) : List Ty → Bool
  | [] => false
  | u :: ts => if t = u then true else contains_helper_from t ts

/-- The member `value` of `contains_helper<...>`.  The template is declared
`template<class, class...>`, so an empty argument list is ill-formed. -/
def contains_helper : List Ty → Option Bool
  | [] => none
  | t :: ts => some (contains_helper_from t ts)

/-- The member `value` of a type. -/
def Ty.value : Ty → Option Bool
  | .inst .contains_helper args => contains_helper args
  | _ => none

/-- The variable template `contains<T, TS...>`. -/
def contains (t : Ty) (items : List Ty) : Option Bool :=
  (inject .contains_helper (t :: items)).bind Ty.value

/-- The member `type` of `distinct_helper<...>`: `pack<>` for the primary
template, and for `distinct_helper<T, TS...>` the `std::conditional_t` on
`contains<T, TS...>`, all three of whose operands are instantiated. -/
def distinct_helper : List Ty → Option Ty
  | [] => some (pack [])
  | t :: ts =>
    (contains t ts).bind fun c =>
      (distinct_helper ts).bind fun r =>
        (prepend r [t]).bind fun kept =>
          some (if c then r else kept)

/-- The member `type` of a type. -/
def Ty.type : Ty → Option Ty
  | .inst .distinct_helper args => distinct_helper args
  | _ => none

/-- The alias `distinct<TS...>`. -/
def distinct (items : List Ty) : Option Ty :=
  (inject .distinct_helper items).bind Ty.type

/-- The member `negation<P>::type<TS...>::value`. -/
def negation (P : List Ty → Bool) (ts : List Ty) : Bool := !P ts

/-- The unary right fold `(E && ...)` over the values of a parameter pack;
over the empty pack it is `true`. -/
def fold_and : List Bool → Bool
  | [] => true
  | [b] => b
  | b :: bs => b && fold_and bs

/-- The unary right fold `(E || ...)` over the values of a parameter pack;
over the empty pack it is `false`. -/
def fold_or : List Bool → Bool
  | [] => false
  | [b] => b
  | b :: bs => b || fold_or bs

/-- The member `conjunction<PS...>::type<TS...>::value`. -/
def conjunction (PS : List (List Ty → Bool)) (ts : List Ty) : Bool :=
  fold_and (PS.map fun P => P ts) && true

/-- The member `disjunction<PS...>::type<TS...>::value`. -/
def disjunction (PS : List (List Ty → Bool)) (ts : List Ty) : Bool :=
  fold_or (PS.map fun P => P ts) || false

/-- The member `type` of `callable_helper<T>`.  The three specializations
give `T(TS...)` for a function type and for the two member function pointer
shapes; the primary template inherits from
`callable_helper<decltype(&T::operator())>`, where `callOp t` is the type of
`&T::operator()` when that expression is well-formed.  `depth` bounds the
nested instantiations of the primary template. -/
def callable_helper (callOp : Ty → Option Ty) : Nat → Ty → Option Ty
  | _, .fn r args => some (.fn r args)
  | _, .memfn r _ args => some (.fn r args)
  | _, .cmemfn r _ args => some (.fn r args)
  | 0, _ => none
  | depth + 1, t => (callOp t).bind (callable_helper callOp depth)

/-- The alias `callable<T>`. -/
def callable (callOp : Ty → Option Ty) (depth : Nat) (t : Ty) : Option Ty :=
  callable_helper callOp depth t

/-- The member `type` of `callable_return_type_helper<T>`: the return type
for a function type, and through the primary template the member of
`callable_return_type_helper<callable<T>>` for any other type. -/
def callable_return_type_helper (callOp : Ty → Option Ty) :
    Nat → Ty → Option Ty
  | _, .fn r _ => some r
  | 0, _ => none
  | depth + 1, t =>
    (callable callOp depth t).bind (callable_return_type_helper callOp depth)

/-- The alias `callable_return_type<T>`. -/
def callable_return_type (callOp : Ty → Option Ty) (depth : Nat) (t : Ty) :
    Option Ty :=
  callable_return_type_helper callOp depth t

/-- The member `type` of `callable_args_helper<T>`: `pack<TS...>` for a
function type `T(TS...)`, and through the primary template the member of
`callable_args_helper<callable<T>>` for any other type. -/
def callable_args_helper (callOp : Ty → Option Ty) : Nat → Ty → Option Ty
  | _, .fn _ args => some (pack args)
  | 0, _ => none
  | depth + 1, t =>
    (callable callOp depth t).bind (callable_args_helper callOp depth)

/-- The alias `callable_args<T>`. -/
def callable_args (callOp : Ty → Option Ty) (depth : Nat) (t : Ty) :
    Option Ty :=
  callable_args_helper callOp depth t

/-- Whether a type has one of the three shapes the specializations of
`callable_helper` match; for any other type the primary template is
selected. -/
def Ty.isCallableShape : Ty → Bool
  | .fn _ _ => true
  | .memfn _ _ _ => true
  | .cmemfn _ _ _ => true
  | _ => false

/-! ## Specification-side vocabulary -/

/-- What one item contributes to a flattened sequence, in the words of the
specification: a type sequence contributes its elements, any other type
contributes itself. -/
def contribution : Ty → List Ty
  | .inst .pack ts => ts
  | t => [t]

/-- Left-to-right concatenation of the contributions of a list of items. -/
def splice : List Ty → List Ty
  | [] => []
  | x :: xs => contribution x ++ splice xs

/-- Deduplication as the specification words it: the first occurrence of each
type is kept, every later occurrence is dropped, and the kept types stay in
the order of their first occurrence. -/
def firstOccurrences : List Ty → List Ty
  | [] => []
  | x :: xs => x :: (firstOccurrences xs).filter (fun y => decide (y ≠ x))

/-- The element at position `i` of `s` if it is kept by the filter the
specification describes, that is if `contains` of it against the elements
after position `i` is false. -/
def keptAt (s : List Ty) (i : Nat) : Option Ty :=
  (s[i]?).bind fun x =>
    if contains x (s.drop (i + 1)) = some false then some x else none

/-- The stable filter of the specification: the kept elements of `s`, by
increasing position. -/
def filterByTail (s : List Ty) : List Ty :=
  (List.range s.length).filterMap (keptAt s)

/-! ## Flattening -/

theorem contribution_of_not_pack {t : Ty} (h : t.isPack = false) :
    contribution t = [t] := by
  cases t with
  | inst c args => cases c <;> simp_all [contribution, Ty.isPack]
  | _ => rfl

theorem contribution_pack (ts : List Ty) : contribution (pack ts) = ts := rfl

theorem splice_of_no_pack {xs : List Ty} (h : ∀ x ∈ xs, x.isPack = false) :
    splice xs = xs := by
  induction xs with
  | nil => rfl
  | cons x xs ih =>
    have hx : x.isPack = false := h x (List.mem_cons_self x xs)
    have hxs : ∀ y ∈ xs, y.isPack = false := fun y hy => h y (List.mem_cons_of_mem x hy)
    simp [splice, contribution_of_not_pack hx, ih hxs]

theorem splice_append (xs ys : List Ty) :
    splice (xs ++ ys) = splice xs ++ splice ys := by
  induction xs with
  | nil => rfl
  | cons x xs ih => simp [splice, ih]

theorem unpack_helper_acc_eq (items : List Ty) :
    ∀ ts : List Ty, unpack_helper_acc ts items = pack (ts ++ splice items) := by
  induction items with
  | nil => intro ts; simp [unpack_helper_acc, splice]
  | cons x rest ih =>
    intro ts
    cases x with
    | inst c args =>
      cases c <;> simp [unpack_helper_acc, splice, contribution, ih]
    | _ => simp [unpack_helper_acc, splice, contribution, ih]

theorem unpack_eq (items : List Ty) : unpack items = pack (splice items) := by
  cases items with
  | nil => simp [unpack, unpack_helper, unpack_helper_acc_eq, splice]
  | cons x rest =>
    cases x with
    | inst c args =>
      cases c <;>
        simp [unpack, unpack_helper, unpack_helper_acc_eq, splice, contribution]
    | _ => simp [unpack, unpack_helper, unpack_helper_acc_eq, splice, contribution]

theorem prepend_pack (r : List Ty) (items : List Ty) :
    prepend (pack r) items = some (pack (splice items ++ r)) := by
  simp [prepend, unpack_eq, prepend_helper, instantiate, Construct.fits]

theorem prepend_pack_single (r : List Ty) (t : Ty) :
    prepend (pack r) [t] = some (pack (contribution t ++ r)) := by
  simp [prepend_pack, splice]

/-- C6. `unpack` of a list of items is the `pack` of the left-to-right
concatenation of their contributions, where a type sequence contributes its
elements, one level deep, and any other type contributes itself; `unpack()`
is `pack<>`, `unpack` of a single sequence is that sequence, and a sequence in
first position is spliced like one anywhere else. -/
theorem unpack_is_concatenation (items rest s : List Ty) (t : Ty) :
    unpack items = pack (splice items)
    ∧ unpack [] = pack []
    ∧ unpack [pack s] = pack s
    ∧ unpack (pack s :: rest) = pack (s ++ splice rest)
    ∧ unpack [pack [pack s, t]] = pack [pack s, t]
    ∧ unpack [t, pack [pack s]] = pack (contribution t ++ [pack s]) := by
  refine ⟨unpack_eq items, ?_, ?_, ?_, ?_, ?_⟩ <;>
    simp [unpack_eq, splice, contribution]

/-! ## Binding -/

theorem bind_helper_packs_placeholder_cons (ts ps : List Ty) (p : Ty) :
    bind_helper_packs (.placeholder :: ts) (p :: ps)
      = (bind_helper_packs ts ps).bind fun r => prepend r [p] := by
  simp [bind_helper_packs]

theorem bind_helper_packs_placeholder_nil (ts : List Ty) :
    bind_helper_packs (.placeholder :: ts) [] = none := by
  simp [bind_helper_packs]

theorem bind_helper_packs_other {t : Ty} (ht : t ≠ .placeholder)
    (ts ps : List Ty) :
    bind_helper_packs (t :: ts) ps
      = (bind_helper_packs ts ps).bind fun r => prepend r [t] := by
  cases t with
  | placeholder => exact absurd rfl ht
  | _ => simp [bind_helper_packs]

theorem bind_eq (c : Construct) (f s : List Ty) :
    bind c f s = (bind_helper_packs (splice f) (splice s)).bind (forward c) := by
  simp [bind, unpack_eq, bind_helper]

/-- With too few supplied types the recursion of `bind_helper` reaches the
specialization that is declared only, whatever the elements are. -/
theorem bind_helper_packs_too_few (f : List Ty) :
    ∀ s : List Ty, s.length < f.count .placeholder →
      bind_helper_packs f s = none := by
  induction f with
  | nil => intro s h; simp at h
  | cons t ts ih =>
    intro s h
    by_cases ht : t = .placeholder
    · subst ht
      cases s with
      | nil => exact bind_helper_packs_placeholder_nil ts
      | cons p ps =>
        have h2 : ps.length < ts.count .placeholder := by
          simp [List.count_cons] at h; omega
        simp [bind_helper_packs_placeholder_cons, ih ps h2]
    · have h2 : s.length < ts.count .placeholder := by
        have hne : ¬ (t == Ty.placeholder) = true := by simpa using ht
        simpa [List.count_cons, hne] using h
      simp [bind_helper_packs_other ht, ih s h2]

/-- With enough supplied types, none of the elements a type sequence, the
recursion of `bind_helper` resolves: each placeholder takes the next supplied
type, each other type stays, and the surplus follows the fixed list. -/
theorem bind_helper_packs_enough (f : List Ty) :
    ∀ s : List Ty, (∀ x ∈ f, x.isPack = false) → (∀ x ∈ s, x.isPack = false) →
      f.count .placeholder ≤ s.length →
      ∃ r, bind_helper_packs f s = some (pack r)
        ∧ r.length = f.length + (s.length - f.count .placeholder)
        ∧ (∀ i, i < f.length →
            r[i]? = if f[i]? = some .placeholder
                    then s[(f.take i).count .placeholder]? else f[i]?)
        ∧ r.drop f.length = s.drop (f.count .placeholder) := by
  induction f with
  | nil =>
    intro s _ _ _
    exact ⟨s, by simp [bind_helper_packs], by simp, by simp, by simp⟩
  | cons t ts ih =>
    intro s hf hs h
    have ht : t.isPack = false := hf t (List.mem_cons_self t ts)
    have hts : ∀ x ∈ ts, x.isPack = false :=
      fun x hx => hf x (List.mem_cons_of_mem t hx)
    by_cases hp : t = .placeholder
    · subst hp
      cases s with
      | nil => simp at h
      | cons p ps =>
        have hpk : p.isPack = false := hs p (List.mem_cons_self p ps)
        have hps : ∀ x ∈ ps, x.isPack = false :=
          fun x hx => hs x (List.mem_cons_of_mem p hx)
        have h2 : ts.count .placeholder ≤ ps.length := by
          simp [List.count_cons] at h; omega
        obtain ⟨r, hr, hlen, hidx, hdrop⟩ := ih ps hts hps h2
        refine ⟨p :: r, ?_, ?_, ?_, ?_⟩
        · simp [bind_helper_packs_placeholder_cons, hr, prepend_pack_single,
            contribution_of_not_pack hpk]
        · simp [hlen, List.count_cons]; omega
        · intro i hi
          cases i with
          | zero => simp
          | succ j =>
            have hj : j < ts.length := by simpa using hi
            simpa [List.count_cons] using hidx j hj
        · simpa [List.count_cons] using hdrop
    · have hne : ¬ (t == Ty.placeholder) = true := by simpa using hp
      have h2 : ts.count .placeholder ≤ s.length := by
        simpa [List.count_cons, hne] using h
      obtain ⟨r, hr, hlen, hidx, hdrop⟩ := ih s hts hs h2
      refine ⟨t :: r, ?_, ?_, ?_, ?_⟩
      · simp [bind_helper_packs_other hp, hr, prepend_pack_single,
          contribution_of_not_pack ht]
      · simp [hlen, List.count_cons, hne]; omega
      · intro i hi
        cases i with
        | zero => simp [hp]
        | succ j =>
          have hj : j < ts.length := by simpa using hi
          simpa [List.count_cons, hne] using hidx j hj
      · simpa [List.count_cons, hne] using hdrop

/-- With enough supplied types the recursion of `bind_helper` resolves to a
`pack`, whatever the elements are. -/
theorem bind_helper_packs_resolves (f : List Ty) :
    ∀ s : List Ty, f.count .placeholder ≤ s.length →
      ∃ r, bind_helper_packs f s = some (pack r) := by
  induction f with
  | nil => intro s _; exact ⟨s, by simp [bind_helper_packs]⟩
  | cons t ts ih =>
    intro s h
    by_cases hp : t = .placeholder
    · subst hp
      cases s with
      | nil => simp at h
      | cons p ps =>
        have h2 : ts.count .placeholder ≤ ps.length := by
          simp [List.count_cons] at h; omega
        obtain ⟨r, hr⟩ := ih ps h2
        exact ⟨contribution p ++ r, by
          simp [bind_helper_packs_placeholder_cons, hr, prepend_pack_single]⟩
    · have hne : ¬ (t == Ty.placeholder) = true := by simpa using hp
      have h2 : ts.count .placeholder ≤ s.length := by
        simpa [List.count_cons, hne] using h
      obtain ⟨r, hr⟩ := ih s h2
      exact ⟨contribution t ++ r, by
        simp [bind_helper_packs_other hp, hr, prepend_pack_single]⟩

/-- Without a placeholder in the fixed list every fixed type is put back by
`prepend` in front of the whole supplied list. -/
theorem bind_helper_packs_no_placeholder (f : List Ty) (s : List Ty) :
    f.count .placeholder = 0 →
      bind_helper_packs f s = some (pack (splice f ++ s)) := by
  induction f with
  | nil => intro _; simp [bind_helper_packs, splice]
  | cons t ts ih =>
    intro h
    have hp : t ≠ .placeholder := by
      intro e; subst e; simp at h
    have hne : ¬ (t == Ty.placeholder) = true := by simpa using hp
    have h2 : ts.count .placeholder = 0 := by
      simpa [List.count_cons, hne] using h
    simp [bind_helper_packs_other hp, ih h2, prepend_pack_single, splice]

theorem instantiate_of_fits {c : Construct} {ts : List Ty}
    (h : c.fits ts = true) : instantiate c ts = some (.inst c ts) := by
  simp [instantiate, h]

theorem instantiate_of_not_fits {c : Construct} {ts : List Ty}
    (h : c.fits ts = false) : instantiate c ts = none := by
  simp [instantiate, h]

theorem forward_pack (c : Construct) (r : List Ty) :
    forward c (pack r) = instantiate c r := rfl

theorem bind_of_helper (c : Construct) (f s r : List Ty)
    (h : bind_helper_packs (splice f) (splice s) = some (pack r)) :
    bind c f s = instantiate c r := by
  simp [bind_eq, h, forward_pack]

theorem inject_eq (c : Construct) (items : List Ty) :
    inject c items = instantiate c (splice items) := by
  simp [inject, unpack_eq, forward_pack]

/-- C2. When the fixed list has exactly as many placeholders as there are
supplied types, none of them a type sequence, `bind<C, f...>::type<s...>` is
the template-id of `C` with a list of the length of `f` whose position `i`
holds the `k`-th supplied type if `f` has its `k`-th placeholder there (`k`
the number of placeholders before `i`) and the type of `f` otherwise; it
resolves to that instantiation whenever the list fits the parameter list of
`C`; and `bind<C, A, placeholder, B>::type<X>` is `inject<C, A, X, B>`,
`bind<C, A, B>::type<>` is `inject<C, A, B>`. -/
theorem bind_fills_placeholders (c : Construct) (f s : List Ty) (A B X : Ty)
    (hf : ∀ x ∈ f, x.isPack = false) (hs : ∀ x ∈ s, x.isPack = false)
    (hcount : f.count .placeholder = s.length)
    (hA : A.isPack = false) (hAp : A ≠ .placeholder)
    (hB : B.isPack = false) (hBp : B ≠ .placeholder)
    (hX : X.isPack = false) :
    (∃ r, bind c f s = instantiate c r
      ∧ (c.fits r = true → bind c f s = some (.inst c r))
      ∧ (c.fits r = false → bind c f s = none)
      ∧ r.length = f.length
      ∧ ∀ i, r[i]? = if f[i]? = some .placeholder
                     then s[(f.take i).count .placeholder]? else f[i]?)
    ∧ bind c [A, .placeholder, B] [X] = inject c [A, X, B]
    ∧ inject c [A, X, B] = instantiate c [A, X, B]
    ∧ bind c [A, B] [] = inject c [A, B]
    ∧ inject c [A, B] = instantiate c [A, B] := by
  have hsplA : splice [A, X, B] = [A, X, B] := by
    simp [splice, contribution_of_not_pack hA, contribution_of_not_pack hB,
      contribution_of_not_pack hX]
  have hsplB : splice [A, B] = [A, B] := by
    simp [splice, contribution_of_not_pack hA, contribution_of_not_pack hB]
  refine ⟨?_, ?_, ?_, ?_, ?_⟩
  · obtain ⟨r, hr, hlen, hidx, _⟩ :=
      bind_helper_packs_enough f s hf hs (Nat.le_of_eq hcount)
    have hb : bind c f s = instantiate c r := by
      apply bind_of_helper
      rw [splice_of_no_pack hf, splice_of_no_pack hs]
      exact hr
    refine ⟨r, hb, ?_, ?_, ?_, ?_⟩
    · intro hfit; rw [hb, instantiate_of_fits hfit]
    · intro hfit; rw [hb, instantiate_of_not_fits hfit]
    · omega
    · intro i
      by_cases hi : i < f.length
      · exact hidx i hi
      · have h1 : f.length ≤ i := Nat.le_of_not_lt hi
        have h2 : r.length ≤ i := by omega
        simp [List.getElem?_eq_none h1, List.getElem?_eq_none h2]
  · rw [inject_eq, hsplA]
    apply bind_of_helper
    simp [splice, contribution_of_not_pack hA, contribution_of_not_pack hB,
      contribution_of_not_pack hX, bind_helper_packs_other hAp,
      bind_helper_packs_other hBp, bind_helper_packs_placeholder_cons,
      bind_helper_packs, prepend_pack_single]
  · rw [inject_eq, hsplA]
  · rw [inject_eq, hsplB]
    apply bind_of_helper
    simp [splice, contribution_of_not_pack hA, contribution_of_not_pack hB,
      bind_helper_packs_other hAp, bind_helper_packs_other hBp,
      bind_helper_packs, prepend_pack_single]
  · rw [inject_eq, hsplB]

/-- Witness of C2 at `bind<C, A, placeholder, B>::type<X>` for a template `C`
declared with two type parameters and a parameter pack. -/
theorem bind_fills_placeholders_witness :
    (∃ r, bind (.templ 7 2 true) [.atom 0, .placeholder, .atom 1] [.atom 2]
        = instantiate (.templ 7 2 true) r
      ∧ (Construct.fits (.templ 7 2 true) r = true →
          bind (.templ 7 2 true) [.atom 0, .placeholder, .atom 1] [.atom 2]
            = some (.inst (.templ 7 2 true) r))
      ∧ (Construct.fits (.templ 7 2 true) r = false →
          bind (.templ 7 2 true) [.atom 0, .placeholder, .atom 1] [.atom 2]
            = none)
      ∧ r.length = [Ty.atom 0, .placeholder, .atom 1].length
      ∧ ∀ i, r[i]? =
          if [Ty.atom 0, .placeholder, .atom 1][i]? = some .placeholder
          then [Ty.atom 2][([Ty.atom 0, .placeholder, .atom 1].take i).count
            .placeholder]?
          else [Ty.atom 0, .placeholder, .atom 1][i]?)
    ∧ bind (.templ 7 2 true) [.atom 0, .placeholder, .atom 1] [.atom 2]
        = inject (.templ 7 2 true) [.atom 0, .atom 2, .atom 1]
    ∧ inject (.templ 7 2 true) [.atom 0, .atom 2, .atom 1]
        = instantiate (.templ 7 2 true) [.atom 0, .atom 2, .atom 1]
    ∧ bind (.templ 7 2 true) [.atom 0, .atom 1] []
        = inject (.templ 7 2 true) [.atom 0, .atom 1]
    ∧ inject (.templ 7 2 true) [.atom 0, .atom 1]
        = instantiate (.templ 7 2 true) [.atom 0, .atom 1] :=
  bind_fills_placeholders (.templ 7 2 true)
    [.atom 0, .placeholder, .atom 1] [.atom 2]
    (.atom 0) (.atom 1) (.atom 2) (by decide) (by decide) (by decide)
    (by decide) (by decide) (by decide) (by decide) (by decide)

/-- Counterexample to C3 as stated: with one supplied type and no
placeholder, and with two supplied types and one placeholder, `bind` resolves
and the surplus is appended. -/
theorem bind_surplus_resolves :
    ([Ty.atom 0].count .placeholder < [Ty.atom 1].length
      ∧ bind (.user 0) [.atom 0] [.atom 1]
          = some (.inst (.user 0) [.atom 0, .atom 1]))
    ∧ ([Ty.placeholder, .atom 0].count .placeholder < [Ty.atom 1, .atom 2].length
      ∧ bind (.user 0) [.placeholder, .atom 0] [.atom 1, .atom 2]
          = some (.inst (.user 0) [.atom 1, .atom 0, .atom 2])) := by
  decide

/-- C3, amended. When more types are supplied than the fixed list has
placeholders, both lists taken as `unpack` flattens them, the surplus is not
an error: `bind_helper` resolves to a `pack` and `bind<C, f...>::type<s...>`
is the template-id of `C` with its elements, which resolves whenever they fit
the parameter list of `C`; when the fixed list has no placeholder these are
the fixed types (each put back through `prepend`) followed by all supplied
types; and when no element is a type sequence there are `length f` plus the
surplus of them, the surplus supplied types standing after the fixed
positions. -/
theorem bind_surplus_is_appended (c : Construct) (f s F S : List Ty)
    (hF : unpack f = pack F) (hS : unpack s = pack S)
    (hmore : F.count .placeholder < S.length) :
    (∃ r, bind_helper (unpack f) (unpack s) = some (pack r)
      ∧ bind c f s = instantiate c r
      ∧ (c.fits r = true → bind c f s = some (.inst c r)))
    ∧ (F.count .placeholder = 0 →
        bind c f s = instantiate c (splice F ++ S))
    ∧ ((∀ x ∈ F, x.isPack = false) → (∀ x ∈ S, x.isPack = false) →
        ∃ r, bind c f s = instantiate c r
          ∧ (c.fits r = true → bind c f s = some (.inst c r))
          ∧ r.length = F.length + (S.length - F.count .placeholder)
          ∧ F.length < r.length
          ∧ r.drop F.length = S.drop (F.count .placeholder)
          ∧ (F.count .placeholder = 0 → r = F ++ S)) := by
  have hh : bind_helper (unpack f) (unpack s) = bind_helper_packs F S := by
    simp [hF, hS, bind_helper]
  have hb : ∀ r, bind_helper_packs F S = some (pack r) →
      bind c f s = instantiate c r := by
    intro r hr
    simp [bind, hh, hr, forward_pack]
  refine ⟨?_, ?_, ?_⟩
  · obtain ⟨r, hr⟩ := bind_helper_packs_resolves F S (Nat.le_of_lt hmore)
    refine ⟨r, by rw [hh, hr], hb r hr, ?_⟩
    intro hfit
    rw [hb r hr, instantiate_of_fits hfit]
  · intro h0
    exact hb _ (bind_helper_packs_no_placeholder F S h0)
  · intro hFp hSp
    obtain ⟨r, hr, hlen, _, hdrop⟩ :=
      bind_helper_packs_enough F S hFp hSp (Nat.le_of_lt hmore)
    refine ⟨r, hb r hr, ?_, hlen, by omega, hdrop, ?_⟩
    · intro hfit
      rw [hb r hr, instantiate_of_fits hfit]
    · intro h0
      have h1 := bind_helper_packs_no_placeholder F S h0
      rw [hr, splice_of_no_pack hFp] at h1
      injection h1 with h2
      injection h2 with _ h3

/-- Witness of the amended C3 at `bind<C, A>::type<B, placeholder>` for a
template `C` declared `template<class...>`. -/
theorem bind_surplus_is_appended_witness :
    (∃ r, bind_helper (unpack [.atom 0]) (unpack [.atom 1, .placeholder])
        = some (pack r)
      ∧ bind (.user 0) [.atom 0] [.atom 1, .placeholder]
        = instantiate (.user 0) r
      ∧ (Construct.fits (.user 0) r = true →
          bind (.user 0) [.atom 0] [.atom 1, .placeholder]
            = some (.inst (.user 0) r)))
    ∧ ([Ty.atom 0].count .placeholder = 0 →
        bind (.user 0) [.atom 0] [.atom 1, .placeholder]
          = instantiate (.user 0)
              (splice [.atom 0] ++ [.atom 1, .placeholder]))
    ∧ ((∀ x ∈ [Ty.atom 0], x.isPack = false) →
        (∀ x ∈ [Ty.atom 1, .placeholder], x.isPack = false) →
        ∃ r, bind (.user 0) [.atom 0] [.atom 1, .placeholder]
            = instantiate (.user 0) r
          ∧ (Construct.fits (.user 0) r = true →
              bind (.user 0) [.atom 0] [.atom 1, .placeholder]
                = some (.inst (.user 0) r))
          ∧ r.length = [Ty.atom 0].length
              + ([Ty.atom 1, .placeholder].length
                  - [Ty.atom 0].count .placeholder)
          ∧ [Ty.atom 0].length < r.length
          ∧ r.drop [Ty.atom 0].length
              = [Ty.atom 1, .placeholder].drop ([Ty.atom 0].count .placeholder)
          ∧ ([Ty.atom 0].count .placeholder = 0 →
              r = [Ty.atom 0] ++ [Ty.atom 1, .placeholder])) :=
  bind_surplus_is_appended (.user 0) [.atom 0] [.atom 1, .placeholder]
    [.atom 0] [.atom 1, .placeholder] (by decide) (by decide) (by decide)

/-- C4. `bind<T, A>::type<B>` is `T<A, B>`: when at least as many types are
supplied as the fixed list has placeholders, none of them a type sequence,
`bind<T, f...>::type<s...>` is the template-id of `T` with `f`, its
placeholders filled left to right by the leading supplied types, followed by
the supplied types that are left, in their order; it resolves to that
instantiation whenever the list fits the parameter list of `T`. -/
theorem bind_fills_then_appends (c : Construct) (f s : List Ty) (A B : Ty)
    (hf : ∀ x ∈ f, x.isPack = false) (hs : ∀ x ∈ s, x.isPack = false)
    (henough : f.count .placeholder ≤ s.length)
    (hA : A.isPack = false) (hAp : A ≠ .placeholder) (hB : B.isPack = false) :
    (∃ filled, bind c f s
        = instantiate c (filled ++ s.drop (f.count .placeholder))
      ∧ (c.fits (filled ++ s.drop (f.count .placeholder)) = true →
          bind c f s
            = some (.inst c (filled ++ s.drop (f.count .placeholder))))
      ∧ (c.fits (filled ++ s.drop (f.count .placeholder)) = false →
          bind c f s = none)
      ∧ filled.length = f.length
      ∧ ∀ i, filled[i]? = if f[i]? = some .placeholder
                          then s[(f.take i).count .placeholder]? else f[i]?)
    ∧ bind c [A] [B] = instantiate c [A, B]
    ∧ (c.fits [A, B] = true → bind c [A] [B] = some (.inst c [A, B])) := by
  have hAB : bind c [A] [B] = instantiate c [A, B] := by
    apply bind_of_helper
    simp [splice, contribution_of_not_pack hA, contribution_of_not_pack hB,
      bind_helper_packs_other hAp, bind_helper_packs, prepend_pack_single]
  refine ⟨?_, hAB, ?_⟩
  · obtain ⟨r, hr, hlen, hidx, hdrop⟩ :=
      bind_helper_packs_enough f s hf hs henough
    have hb : bind c f s
        = instantiate c (r.take f.length ++ s.drop (f.count .placeholder)) := by
      rw [← hdrop, List.take_append_drop]
      apply bind_of_helper
      rw [splice_of_no_pack hf, splice_of_no_pack hs]
      exact hr
    refine ⟨r.take f.length, hb, ?_, ?_, ?_, ?_⟩
    · intro hfit; rw [hb, instantiate_of_fits hfit]
    · intro hfit; rw [hb, instantiate_of_not_fits hfit]
    · simp [List.length_take]; omega
    · intro i
      by_cases hi : i < f.length
      · rw [List.getElem?_take_of_lt hi]; exact hidx i hi
      · have h1 : f.length ≤ i := Nat.le_of_not_lt hi
        have h2 : (r.take f.length).length ≤ i := by
          simp [List.length_take]; omega
        simp [List.getElem?_eq_none h1, List.getElem?_eq_none h2]
  · intro hfit; rw [hAB, instantiate_of_fits hfit]

/-- Witness of C4 at `bind<T, placeholder, A>::type<B, C>` for a template `T`
declared with exactly three type parameters, and at `bind<T, A>::type<B>`,
which this `T` does not take. -/
theorem bind_fills_then_appends_witness :
    (∃ filled, bind (.templ 5 3 false) [.placeholder, .atom 0]
          [.atom 1, .atom 2]
        = instantiate (.templ 5 3 false) (filled ++
            [Ty.atom 1, .atom 2].drop ([Ty.placeholder, .atom 0].count
              .placeholder))
      ∧ (Construct.fits (.templ 5 3 false) (filled ++
            [Ty.atom 1, .atom 2].drop ([Ty.placeholder, .atom 0].count
              .placeholder)) = true →
          bind (.templ 5 3 false) [.placeholder, .atom 0] [.atom 1, .atom 2]
            = some (.inst (.templ 5 3 false) (filled ++
                [Ty.atom 1, .atom 2].drop ([Ty.placeholder, .atom 0].count
                  .placeholder))))
      ∧ (Construct.fits (.templ 5 3 false) (filled ++
            [Ty.atom 1, .atom 2].drop ([Ty.placeholder, .atom 0].count
              .placeholder)) = false →
          bind (.templ 5 3 false) [.placeholder, .atom 0] [.atom 1, .atom 2]
            = none)
      ∧ filled.length = [Ty.placeholder, .atom 0].length
      ∧ ∀ i, filled[i]? =
          if [Ty.placeholder, .atom 0][i]? = some .placeholder
          then [Ty.atom 1, .atom 2][([Ty.placeholder, .atom 0].take i).count
            .placeholder]?
          else [Ty.placeholder, .atom 0][i]?)
    ∧ bind (.templ 5 3 false) [.atom 0] [.atom 1]
        = instantiate (.templ 5 3 false) [.atom 0, .atom 1]
    ∧ (Construct.fits (.templ 5 3 false) [.atom 0, .atom 1] = true →
        bind (.templ 5 3 false) [.atom 0] [.atom 1]
          = some (.inst (.templ 5 3 false) [.atom 0, .atom 1])) :=
  bind_fills_then_appends (.templ 5 3 false) [.placeholder, .atom 0]
    [.atom 1, .atom 2] (.atom 0) (.atom 1) (by decide) (by decide) (by decide)
    (by decide) (by decide) (by decide)

/-- C5. When fewer types are supplied than the fixed list has placeholders,
both lists taken as `unpack` flattens them, `bind<C, f...>::type<s...>` does
not resolve, wherever the unfilled placeholder stands and whatever follows
it. -/
theorem bind_too_few_fails (c : Construct) (f s F S : List Ty)
    (hF : unpack f = pack F) (hS : unpack s = pack S)
    (hfew : S.length < F.count .placeholder) :
    bind c f s = none := by
  simp [bind, hF, hS, bind_helper, bind_helper_packs_too_few F S hfew]

/-- Witness of C5 at `bind<C, A, placeholder, B>::type<>`, where a fixed
type follows the unfilled placeholder. -/
theorem bind_too_few_fails_witness :
    bind (.user 0) [.atom 0, .placeholder, .atom 1] [] = none :=
  bind_too_few_fails (.user 0) [.atom 0, .placeholder, .atom 1] []
    [.atom 0, .placeholder, .atom 1] [] (by decide) (by decide) (by decide)

/-! ## Membership, filtering, mapping, deduplication -/

theorem contains_helper_from_eq (t : Ty) (xs : List Ty) :
    contains_helper_from t xs = decide (t ∈ xs) := by
  induction xs with
  | nil => simp [contains_helper_from]
  | cons u ts ih =>
    by_cases h : t = u
    · simp [contains_helper_from, h]
    · simp [contains_helper_from, h, ih]

theorem contains_eq {t : Ty} (ht : t.isPack = false) (items : List Ty) :
    contains t items = some (decide (t ∈ splice items)) := by
  simp [contains, inject, unpack_eq, splice, contribution_of_not_pack ht,
    forward, forward_helper, instantiate, Construct.fits, Ty.value,
    contains_helper, contains_helper_from_eq]

theorem filter_helper_packs_eq (P : Ty → Bool) (xs : List Ty) :
    (∀ x ∈ xs, x.isPack = false) →
      filter_helper_packs P xs = some (pack (xs.filter P)) := by
  induction xs with
  | nil => intro _; simp [filter_helper_packs]
  | cons t ts ih =>
    intro h
    have ht : t.isPack = false := h t (List.mem_cons_self t ts)
    have hts : ∀ x ∈ ts, x.isPack = false :=
      fun x hx => h x (List.mem_cons_of_mem t hx)
    by_cases hp : P t = true
    · simp [filter_helper_packs, ih hts, prepend_pack_single,
        contribution_of_not_pack ht, hp]
    · simp [filter_helper_packs, ih hts, prepend_pack_single,
        contribution_of_not_pack ht, hp]

theorem distinct_helper_eq (xs : List Ty) :
    (∀ x ∈ xs, x.isPack = false) →
      distinct_helper xs = some (pack xs.dedup) := by
  induction xs with
  | nil => intro _; simp [distinct_helper]
  | cons t ts ih =>
    intro h
    have ht : t.isPack = false := h t (List.mem_cons_self t ts)
    have hts : ∀ x ∈ ts, x.isPack = false :=
      fun x hx => h x (List.mem_cons_of_mem t hx)
    by_cases hm : t ∈ ts
    · simp [distinct_helper, contains_eq ht, splice_of_no_pack hts, ih hts,
        prepend_pack_single, contribution_of_not_pack ht, hm,
        List.dedup_cons_of_mem hm]
    · simp [distinct_helper, contains_eq ht, splice_of_no_pack hts, ih hts,
        prepend_pack_single, contribution_of_not_pack ht, hm,
        List.dedup_cons_of_not_mem hm]

theorem distinct_eq (items : List Ty)
    (h : ∀ x ∈ splice items, x.isPack = false) :
    distinct items = some (pack (splice items).dedup) := by
  simp [distinct, inject, unpack_eq, forward, forward_helper, instantiate,
    Construct.fits, Ty.type,
    distinct_helper_eq (splice items) h]

theorem firstOccurrences_concat (x : Ty) (xs : List Ty) :
    firstOccurrences (xs ++ [x])
      = if x ∈ xs then firstOccurrences xs else firstOccurrences xs ++ [x] := by
  induction xs with
  | nil => simp [firstOccurrences]
  | cons y ys ih =>
    by_cases hm : x ∈ ys
    · simp [firstOccurrences, ih, hm]
    · by_cases hxy : x = y
      · subst hxy
        simp [firstOccurrences, ih, hm, List.filter_append]
      · simp [firstOccurrences, ih, hm, hxy, List.filter_append]

theorem dedup_eq_firstOccurrences_reverse (xs : List Ty) :
    xs.dedup = (firstOccurrences xs.reverse).reverse := by
  induction xs with
  | nil => simp [firstOccurrences]
  | cons x xs ih =>
    by_cases hm : x ∈ xs
    · simp [List.dedup_cons_of_mem hm, firstOccurrences_concat, hm, ih]
    · simp [List.dedup_cons_of_not_mem hm, firstOccurrences_concat, hm, ih]

theorem unpack_elems {items xs : List Ty} (h : unpack items = pack xs) :
    xs = splice items := by
  rw [unpack_eq] at h
  injection h with _ h2
  exact h2.symm

/-- Counterexample to C1 as stated: on `[A, B, A, C, B]` the result is
`[A, C, B]`, not the first occurrences `[A, B, C]`; and on the sequence
`[pack<A>, A]` the result is `[A]`, not `[pack<A>, A]`. -/
theorem distinct_not_first_occurrences :
    (distinct [pack [.atom 0, .atom 1, .atom 0, .atom 2, .atom 1]]
        = some (pack [.atom 0, .atom 2, .atom 1])
      ∧ firstOccurrences [.atom 0, .atom 1, .atom 0, .atom 2, .atom 1]
        = [.atom 0, .atom 1, .atom 2]
      ∧ distinct [pack [.atom 0, .atom 1, .atom 0, .atom 2, .atom 1]]
        ≠ some (pack (firstOccurrences
            [.atom 0, .atom 1, .atom 0, .atom 2, .atom 1])))
    ∧ (distinct [pack [pack [.atom 0], .atom 0]] = some (pack [.atom 0])
      ∧ distinct [pack [pack [.atom 0], .atom 0]]
        ≠ some (pack (firstOccurrences [pack [.atom 0], .atom 0]))) := by
  decide

/-- C1, amended. For a type sequence whose elements are not type sequences,
`distinct` keeps the last occurrence of each distinct type and drops the
earlier ones, so the result lists the types in the order of their last
occurrence (the mirror image of first-occurrence deduplication); in
particular `distinct<pack<A, B, A, C, B>>` is `pack<A, C, B>` for pairwise
distinct `A`, `B`, `C`. -/
theorem distinct_keeps_last_occurrences (s : List Ty) (A B C : Ty)
    (hs : ∀ x ∈ s, x.isPack = false)
    (hA : A.isPack = false) (hB : B.isPack = false) (hC : C.isPack = false)
    (hAB : A ≠ B) (hAC : A ≠ C) (hBC : B ≠ C) :
    distinct [pack s] = some (pack (firstOccurrences s.reverse).reverse)
    ∧ distinct s = some (pack (firstOccurrences s.reverse).reverse)
    ∧ distinct [pack [A, B, A, C, B]] = some (pack [A, C, B]) := by
  have h1 : ∀ x ∈ splice [pack s], x.isPack = false := by
    simpa [splice, contribution] using hs
  have h2 : ∀ x ∈ splice s, x.isPack = false := by
    simpa [splice_of_no_pack hs] using hs
  have h3 : ∀ x ∈ splice [pack [A, B, A, C, B]], x.isPack = false := by
    simp [splice, contribution, hA, hB, hC]
  have hBA : B ≠ A := fun e => hAB e.symm
  have hCA : C ≠ A := fun e => hAC e.symm
  have hCB : C ≠ B := fun e => hBC e.symm
  refine ⟨?_, ?_, ?_⟩
  · rw [distinct_eq _ h1, dedup_eq_firstOccurrences_reverse]
    simp [splice, contribution]
  · rw [distinct_eq _ h2, dedup_eq_firstOccurrences_reverse,
      splice_of_no_pack hs]
  · rw [distinct_eq _ h3, dedup_eq_firstOccurrences_reverse]
    simp [splice, contribution, firstOccurrences, hAB, hAC, hBC, hBA, hCA, hCB]

/-- Witness of the amended C1 at `[A, A, B]`. -/
theorem distinct_keeps_last_occurrences_witness :
    distinct [pack [.atom 0, .atom 0, .atom 1]]
      = some (pack (firstOccurrences
          [Ty.atom 0, .atom 0, .atom 1].reverse).reverse)
    ∧ distinct [.atom 0, .atom 0, .atom 1]
      = some (pack (firstOccurrences
          [Ty.atom 0, .atom 0, .atom 1].reverse).reverse)
    ∧ distinct [pack [.atom 0, .atom 1, .atom 0, .atom 2, .atom 1]]
      = some (pack [.atom 0, .atom 2, .atom 1]) :=
  distinct_keeps_last_occurrences [.atom 0, .atom 0, .atom 1]
    (.atom 0) (.atom 1) (.atom 2) (by decide) (by decide) (by decide)
    (by decide) (by decide) (by decide) (by decide)

/-- C7. For every unary predicate `P` and every type sequence `s` none of
whose elements is a type sequence, `filter<P, s>` is the sequence of the
elements of `s` on which `P` is true, each as often as it occurs and in the
same order; the empty sequence gives the empty sequence; and `[A, B, C]` with
`P` true only on `B` gives `[B]`. -/
theorem filter_keeps_exactly (P : Ty → Bool) (s : List Ty) (A B C : Ty)
    (hs : ∀ x ∈ s, x.isPack = false) :
    filter P [pack s] = some (pack (s.filter P))
    ∧ filter P s = some (pack (s.filter P))
    ∧ filter P [pack []] = some (pack [])
    ∧ filter P [] = some (pack [])
    ∧ (A.isPack = false → B.isPack = false → C.isPack = false →
        P A = false → P B = true → P C = false →
        filter P [pack [A, B, C]] = some (pack [B])) := by
  refine ⟨?_, ?_, ?_, ?_, ?_⟩
  · simp [filter, unpack_eq, splice, contribution, filter_helper,
      filter_helper_packs_eq P s hs]
  · simp [filter, unpack_eq, splice_of_no_pack hs, filter_helper,
      filter_helper_packs_eq P s hs]
  · simp [filter, unpack_eq, splice, contribution, filter_helper,
      filter_helper_packs]
  · simp [filter, unpack_eq, splice, filter_helper, filter_helper_packs]
  · intro hA hB hC hPA hPB hPC
    have hABC : ∀ x ∈ [A, B, C], x.isPack = false := by
      simp [hA, hB, hC]
    simp [filter, unpack_eq, splice, contribution, filter_helper,
      filter_helper_packs_eq P [A, B, C] hABC, List.filter, hPA, hPB, hPC]

/-- Witness of C7, once with the predicate that is true on every type and
once with a predicate true only on `atom 1`. -/
theorem filter_keeps_exactly_witness :
    (filter (fun _ => true) [pack [.atom 1, .atom 0, .atom 1]]
        = some (pack [.atom 1, .atom 0, .atom 1])
      ∧ filter (fun _ => true) [pack []] = some (pack [])
      ∧ filter (fun _ => false) [pack [.atom 1, .atom 0, .atom 1]]
        = some (pack [])
      ∧ filter (fun _ => false) [] = some (pack []))
    ∧ (filter (fun t => decide (t = .atom 1))
          [pack [.atom 1, .atom 0, .atom 1, .placeholder]]
        = some (pack (([.atom 1, .atom 0, .atom 1, .placeholder] :
            List Ty).filter (fun t => decide (t = .atom 1))))
      ∧ filter (fun t => decide (t = .atom 1))
          [.atom 1, .atom 0, .atom 1, .placeholder]
        = some (pack [.atom 1, .atom 1])
      ∧ filter (fun t => decide (t = .atom 1))
          [pack [.atom 0, .atom 1, .atom 2]]
        = some (pack [.atom 1])) :=
  ⟨⟨(filter_keeps_exactly (fun _ => true) [.atom 1, .atom 0, .atom 1]
        (.atom 0) (.atom 1) (.atom 2) (by decide)).1,
      (filter_keeps_exactly (fun _ => true) [.atom 1, .atom 0, .atom 1]
        (.atom 0) (.atom 1) (.atom 2) (by decide)).2.2.1,
      (filter_keeps_exactly (fun _ => false) [.atom 1, .atom 0, .atom 1]
        (.atom 0) (.atom 1) (.atom 2) (by decide)).1,
      (filter_keeps_exactly (fun _ => false) [.atom 1, .atom 0, .atom 1]
        (.atom 0) (.atom 1) (.atom 2) (by decide)).2.2.2.1⟩,
    ⟨(filter_keeps_exactly (fun t => decide (t = .atom 1))
        [.atom 1, .atom 0, .atom 1, .placeholder]
        (.atom 0) (.atom 1) (.atom 2) (by decide)).1,
      (filter_keeps_exactly (fun t => decide (t = .atom 1))
        [.atom 1, .atom 0, .atom 1, .placeholder]
        (.atom 0) (.atom 1) (.atom 2) (by decide)).2.1,
      (filter_keeps_exactly (fun t => decide (t = .atom 1))
        [.atom 1, .atom 0, .atom 1, .placeholder]
        (.atom 0) (.atom 1) (.atom 2) (by decide)).2.2.2.2
        (by decide) (by decide) (by decide) (by decide) (by decide)
        (by decide)⟩⟩

/-- C8. For a type `T` that is not a type sequence and any list of items,
`contains<T, items...>` resolves, to `true` exactly when some element of
`unpack<items...>` is identical to `T` and to `false` otherwise. -/
theorem contains_iff_mem_unpack (t : Ty) (items xs : List Ty)
    (ht : t.isPack = false) (hx : unpack items = pack xs) :
    contains t items = some (decide (∃ x ∈ xs, x = t))
    ∧ (contains t items = some true ↔ ∃ x ∈ xs, x = t)
    ∧ (contains t items = some false ↔ ¬ ∃ x ∈ xs, x = t) := by
  have hxs : xs = splice items := unpack_elems hx
  subst hxs
  simp [contains_eq ht]

/-- Witness of C8 at `contains<B, A, pack<B, C>>`. -/
theorem contains_iff_mem_unpack_witness :
    contains (.atom 1) [.atom 0, pack [.atom 1, .atom 2]]
      = some (decide (∃ x ∈ [Ty.atom 0, .atom 1, .atom 2], x = .atom 1))
    ∧ (contains (.atom 1) [.atom 0, pack [.atom 1, .atom 2]] = some true
        ↔ ∃ x ∈ [Ty.atom 0, .atom 1, .atom 2], x = .atom 1)
    ∧ (contains (.atom 1) [.atom 0, pack [.atom 1, .atom 2]] = some false
        ↔ ¬ ∃ x ∈ [Ty.atom 0, .atom 1, .atom 2], x = .atom 1) :=
  contains_iff_mem_unpack (.atom 1) [.atom 0, pack [.atom 1, .atom 2]]
    [.atom 0, .atom 1, .atom 2] (by decide) (by decide)

/-- Counterexample to C9 as stated: with `A = pack<X, X>`, `contains(A, [])`
is `true`; with `A = pack<>` it does not resolve; and with `A = pack<X, Y>`,
`contains(A, [A])` is `false`. -/
theorem contains_of_pack_needle :
    contains (pack [.atom 0, .atom 0]) [pack []] = some true
    ∧ contains (pack [.atom 0, .atom 0]) [] = some true
    ∧ contains (pack []) [pack []] = none
    ∧ contains (pack []) [] = none
    ∧ contains (pack [.atom 0, .atom 1]) [pack [pack [.atom 0, .atom 1]]]
        = some false := by
  decide

/-- C9, amended. For any type `A` that is not a type sequence,
`contains(A, [])` resolves to `false` and `contains(A, [A])` resolves to
`true`, the sequence given as a `pack` or as loose items. -/
theorem contains_empty_and_singleton (A : Ty) (hA : A.isPack = false) :
    contains A [pack []] = some false
    ∧ contains A [] = some false
    ∧ contains A [pack [A]] = some true
    ∧ contains A [A] = some true := by
  simp [contains_eq hA, splice, contribution_pack, contribution_of_not_pack hA]

/-- Witness of the amended C9 at the type `placeholder`. -/
theorem contains_empty_and_singleton_witness :
    contains .placeholder [pack []] = some false
    ∧ contains .placeholder [] = some false
    ∧ contains .placeholder [pack [.placeholder]] = some true
    ∧ contains .placeholder [.placeholder] = some true :=
  contains_empty_and_singleton .placeholder (by decide)

/-- C10. `transform<F, items...>` is the sequence of `F` applied to each
element of `unpack<items...>`: same length, the `k`-th result is `F` of the
`k`-th element, kept as one element whatever `F` returns, and the empty
sequence maps to the empty sequence. -/
theorem transform_maps_each (F : Ty → Ty) (items xs : List Ty)
    (hx : unpack items = pack xs) :
    (∃ ys : List Ty, transform F items = pack ys
      ∧ ys = xs.map F
      ∧ ys.length = xs.length
      ∧ ∀ k : Nat, ys[k]? = (xs[k]?).map F)
    ∧ transform F [] = pack []
    ∧ transform F [pack []] = pack [] := by
  refine ⟨⟨xs.map F, ?_, rfl, ?_, ?_⟩, ?_, ?_⟩
  · simp [transform, hx, transform_helper]
  · simp
  · intro k; simp
  · simp [transform, unpack_eq, splice, transform_helper]
  · simp [transform, unpack_eq, splice, contribution, transform_helper]

/-- Witness of C10 with an `F` that returns a type sequence. -/
theorem transform_maps_each_witness :
    (∃ ys : List Ty, transform (fun t => pack [t, t]) [.atom 0, pack [.atom 1, pack []]]
        = pack ys
      ∧ ys = ([.atom 0, .atom 1, pack []] : List Ty).map (fun t => pack [t, t])
      ∧ ys.length = ([.atom 0, .atom 1, pack []] : List Ty).length
      ∧ ∀ k : Nat, ys[k]? = (([.atom 0, .atom 1, pack []] : List Ty)[k]?).map
          (fun t => pack [t, t]))
    ∧ transform (fun t => pack [t, t]) [] = pack []
    ∧ transform (fun t => pack [t, t]) [pack []] = pack [] :=
  transform_maps_each (fun t => pack [t, t]) [.atom 0, pack [.atom 1, pack []]]
    [.atom 0, .atom 1, pack []] (by decide)

/-! ## Reconstruction -/

/-- C11. For an instantiated construct `T = C<a1..an>` and any items,
`append<T, items...>` is the template-id of `C` with the arguments of `T`
followed by `unpack<items...>`, `prepend<T, items...>` is the template-id of
`C` with `unpack<items...>` followed by the arguments of `T`, each resolving
to that instantiation of the same `C` whenever the list fits the parameter
list of `C`; then `extract` of `append<T, x, y>` is `extract<T>` followed by
`x, y` and `extract` of `prepend<T, x, y>` is `x, y` followed by
`extract<T>`, for `x`, `y` that are not type sequences. -/
theorem append_prepend_keep_construct (c : Construct)
    (args items xs : List Ty) (x y : Ty)
    (hx : unpack items = pack xs)
    (hxp : x.isPack = false) (hyp : y.isPack = false) :
    extract (.inst c args) = some (pack args)
    ∧ append (.inst c args) items = instantiate c (args ++ xs)
    ∧ prepend (.inst c args) items = instantiate c (xs ++ args)
    ∧ (c.fits (args ++ xs) = true →
        append (.inst c args) items = some (.inst c (args ++ xs)))
    ∧ (c.fits (xs ++ args) = true →
        prepend (.inst c args) items = some (.inst c (xs ++ args)))
    ∧ (c.fits (args ++ xs) = false → append (.inst c args) items = none)
    ∧ (c.fits (xs ++ args) = false → prepend (.inst c args) items = none)
    ∧ (c.fits (args ++ [x, y]) = true →
        append (.inst c args) [x, y] = some (.inst c (args ++ [x, y]))
        ∧ (append (.inst c args) [x, y]).bind extract
            = some (pack (args ++ [x, y])))
    ∧ (c.fits ([x, y] ++ args) = true →
        prepend (.inst c args) [x, y] = some (.inst c ([x, y] ++ args))
        ∧ (prepend (.inst c args) [x, y]).bind extract
            = some (pack ([x, y] ++ args))) := by
  have hxy : unpack [x, y] = pack [x, y] := by
    simp [unpack_eq, splice, contribution_of_not_pack hxp,
      contribution_of_not_pack hyp]
  have ha : append (.inst c args) items = instantiate c (args ++ xs) := by
    simp [append, hx, append_helper]
  have hp : prepend (.inst c args) items = instantiate c (xs ++ args) := by
    simp [prepend, hx, prepend_helper]
  have ha2 : append (.inst c args) [x, y] = instantiate c (args ++ [x, y]) := by
    simp [append, hxy, append_helper]
  have hp2 : prepend (.inst c args) [x, y]
      = instantiate c ([x, y] ++ args) := by
    simp [prepend, hxy, prepend_helper]
  refine ⟨?_, ha, hp, ?_, ?_, ?_, ?_, ?_, ?_⟩
  · simp [extract, extract_helper]
  · intro h; rw [ha, instantiate_of_fits h]
  · intro h; rw [hp, instantiate_of_fits h]
  · intro h; rw [ha, instantiate_of_not_fits h]
  · intro h; rw [hp, instantiate_of_not_fits h]
  · intro h
    rw [ha2, instantiate_of_fits h]
    simp [extract, extract_helper]
  · intro h
    rw [hp2, instantiate_of_fits h]
    simp [extract, extract_helper]

/-- Witness of C11 at `T = C<A>` for a template `C` declared with one type
parameter and a parameter pack, with the items `B, pack<A, pack<B>>` and with
`x = B`, `y = C`. -/
theorem append_prepend_keep_construct_witness :
    extract (.inst (.templ 3 1 true) [.atom 0]) = some (pack [.atom 0])
    ∧ append (.inst (.templ 3 1 true) [.atom 0])
          [.atom 1, pack [.atom 0, pack [.atom 1]]]
        = some (.inst (.templ 3 1 true)
            [.atom 0, .atom 1, .atom 0, pack [.atom 1]])
    ∧ prepend (.inst (.templ 3 1 true) [.atom 0])
          [.atom 1, pack [.atom 0, pack [.atom 1]]]
        = some (.inst (.templ 3 1 true)
            [.atom 1, .atom 0, pack [.atom 1], .atom 0])
    ∧ (append (.inst (.templ 3 1 true) [.atom 0]) [.atom 1, .atom 2]).bind
          extract
        = some (pack ([.atom 0] ++ [.atom 1, .atom 2]))
    ∧ (prepend (.inst (.templ 3 1 true) [.atom 0]) [.atom 1, .atom 2]).bind
          extract
        = some (pack ([.atom 1, .atom 2] ++ [.atom 0])) :=
  ⟨(append_prepend_keep_construct (.templ 3 1 true) [.atom 0]
      [.atom 1, pack [.atom 0, pack [.atom 1]]]
      [.atom 1, .atom 0, pack [.atom 1]] (.atom 1) (.atom 2)
      (by decide) (by decide) (by decide)).1,
    (append_prepend_keep_construct (.templ 3 1 true) [.atom 0]
      [.atom 1, pack [.atom 0, pack [.atom 1]]]
      [.atom 1, .atom 0, pack [.atom 1]] (.atom 1) (.atom 2)
      (by decide) (by decide) (by decide)).2.2.2.1 (by decide),
    (append_prepend_keep_construct (.templ 3 1 true) [.atom 0]
      [.atom 1, pack [.atom 0, pack [.atom 1]]]
      [.atom 1, .atom 0, pack [.atom 1]] (.atom 1) (.atom 2)
      (by decide) (by decide) (by decide)).2.2.2.2.1 (by decide),
    ((append_prepend_keep_construct (.templ 3 1 true) [.atom 0]
      [.atom 1, pack [.atom 0, pack [.atom 1]]]
      [.atom 1, .atom 0, pack [.atom 1]] (.atom 1) (.atom 2)
      (by decide) (by decide) (by decide)).2.2.2.2.2.2.2.1 (by decide)).2,
    ((append_prepend_keep_construct (.templ 3 1 true) [.atom 0]
      [.atom 1, pack [.atom 0, pack [.atom 1]]]
      [.atom 1, .atom 0, pack [.atom 1]] (.atom 1) (.atom 2)
      (by decide) (by decide) (by decide)).2.2.2.2.2.2.2.2 (by decide)).2⟩

/-- Counterexample to C12 as stated: with `a = pack<A>` and
`b = pack<pack<B>>`, `unpack<a, b>` is `pack<A, pack<B>>` while `append` of
`unpack<a>` with the one element of `b` is `pack<A, B>`. -/
theorem unpack_pair_not_append :
    unpack [pack [.atom 0], pack [pack [.atom 1]]]
      = pack [.atom 0, pack [.atom 1]]
    ∧ append (unpack [pack [.atom 0]]) [pack [.atom 1]]
      = some (pack [.atom 0, .atom 1])
    ∧ some (unpack [pack [.atom 0], pack [pack [.atom 1]]])
      ≠ append (unpack [pack [.atom 0]]) [pack [.atom 1]] := by
  decide

/-- C12, amended. For type sequences `a` and `b`, the elements of `a`
arbitrary and no element of `b` itself a type sequence, `unpack<a, b>` equals
`append` of `unpack<a>` with the elements of `b` as separate items, and both
are `a` followed by `b`. -/
theorem unpack_pair_is_append (a b : List Ty)
    (hb : ∀ x ∈ b, x.isPack = false) :
    some (unpack [pack a, pack b]) = append (unpack [pack a]) b
    ∧ unpack [pack a, pack b] = pack (a ++ b) := by
  simp [append, unpack_eq, splice, contribution, append_helper, instantiate,
    Construct.fits,
    splice_of_no_pack hb]

/-- Witness of the amended C12 at `a = pack<pack<A>>`, `b = pack<B, C>`. -/
theorem unpack_pair_is_append_witness :
    some (unpack [pack [pack [.atom 0]], pack [.atom 1, .atom 2]])
      = append (unpack [pack [pack [.atom 0]]]) [.atom 1, .atom 2]
    ∧ unpack [pack [pack [.atom 0]], pack [.atom 1, .atom 2]]
      = pack ([pack [.atom 0]] ++ [.atom 1, .atom 2]) :=
  unpack_pair_is_append [pack [.atom 0]] [.atom 1, .atom 2] (by decide)

/-- C13. Round trip: `inject<C, s>` is the template-id of `C` with the
elements of the type sequence `s`, nested sequences kept, and whenever they
fit the parameter list of `C` it resolves and `extract` of it is `s`; for any
items `inject<C, items...>` is `forward<C, unpack<items...>>`, and `extract`
of it, whenever it resolves, is `unpack<items...>`. -/
theorem extract_inject_round_trip (c : Construct) (s items : List Ty) :
    inject c [pack s] = instantiate c s
    ∧ (c.fits s = true →
        inject c [pack s] = some (.inst c s)
        ∧ (inject c [pack s]).bind extract = some (pack s))
    ∧ (c.fits s = false → inject c [pack s] = none)
    ∧ inject c items = forward c (unpack items)
    ∧ (∀ xs, unpack items = pack xs → c.fits xs = true →
        (inject c items).bind extract = some (unpack items))
    ∧ (∀ V, inject c items = some V → extract V = some (unpack items))
    ∧ (c.fits [pack s, pack [pack s]] = true →
        (inject c [pack [pack s, pack [pack s]]]).bind extract
          = some (pack [pack s, pack [pack s]])) := by
  have h1 : inject c [pack s] = instantiate c s := by
    simp [inject_eq, splice, contribution]
  refine ⟨h1, ?_, ?_, rfl, ?_, ?_, ?_⟩
  · intro h
    rw [h1, instantiate_of_fits h]
    simp [extract, extract_helper]
  · intro h
    rw [h1, instantiate_of_not_fits h]
  · intro xs hxs hfit
    have hspl : xs = splice items := unpack_elems hxs
    subst hspl
    rw [inject_eq, instantiate_of_fits hfit, unpack_eq]
    simp [extract, extract_helper]
  · intro V hV
    rw [inject_eq] at hV
    by_cases hfit : c.fits (splice items) = true
    · rw [instantiate_of_fits hfit] at hV
      injection hV with hV
      subst hV
      simp [extract, extract_helper, unpack_eq]
    · rw [instantiate_of_not_fits (by simpa using hfit)] at hV
      cases hV
  · intro h
    rw [inject_eq]
    simp only [splice, contribution, List.append_nil]
    rw [instantiate_of_fits h]
    simp [extract, extract_helper]

/-- Witness of C13 for a template declared with exactly two type parameters:
the round trip on a two-element sequence with a nested sequence, and no
resolution on a one-element sequence. -/
theorem extract_inject_round_trip_witness :
    (inject (.templ 5 2 false) [pack [.atom 0, pack [.atom 1]]]).bind extract
      = some (pack [.atom 0, pack [.atom 1]])
    ∧ inject (.templ 5 2 false) [pack [.atom 0]] = none
    ∧ (inject (.user 0) [.atom 0, pack [.atom 1, pack []]]).bind extract
      = some (unpack [.atom 0, pack [.atom 1, pack []]]) :=
  ⟨((extract_inject_round_trip (.templ 5 2 false) [.atom 0, pack [.atom 1]]
      []).2.1 (by decide)).2,
    (extract_inject_round_trip (.templ 5 2 false) [.atom 0] []).2.2.1
      (by decide),
    (extract_inject_round_trip (.user 0) []
      [.atom 0, pack [.atom 1, pack []]]).2.2.2.2.1
      [.atom 0, .atom 1, pack []] (by decide) (by decide)⟩

/-- C14. For a construct `C` and an instantiated construct `T = U<t1..tn>`,
`forward<C, T>` is the template-id `C<t1..tn>`, which resolves whenever the
arguments fit the parameter list of `C`, and `extract` of it is then
`extract<T>`: only the construct changes, the arguments and their order
stay. -/
theorem forward_changes_construct_only (c u : Construct) (ts : List Ty) :
    forward c (.inst u ts) = instantiate c ts
    ∧ (c.fits ts = true →
        forward c (.inst u ts) = some (.inst c ts)
        ∧ (forward c (.inst u ts)).bind extract = extract (.inst u ts))
    ∧ (c.fits ts = false → forward c (.inst u ts) = none)
    ∧ (∀ V, forward c (.inst u ts) = some V →
        extract V = extract (.inst u ts))
    ∧ extract (.inst u ts) = some (pack ts) := by
  have h1 : forward c (.inst u ts) = instantiate c ts := rfl
  refine ⟨h1, ?_, ?_, ?_, ?_⟩
  · intro h
    rw [h1, instantiate_of_fits h]
    simp [extract, extract_helper]
  · intro h
    rw [h1, instantiate_of_not_fits h]
  · intro V hV
    rw [h1] at hV
    by_cases hfit : c.fits ts = true
    · rw [instantiate_of_fits hfit] at hV
      injection hV with hV
      subst hV
      simp [extract, extract_helper]
    · rw [instantiate_of_not_fits (by simpa using hfit)] at hV
      cases hV
  · simp [extract, extract_helper]

/-- Witness of C14: forwarding `U<A, B>` to a template declared with exactly
two type parameters keeps the arguments, and forwarding `pack<A>` to it does
not resolve. -/
theorem forward_changes_construct_only_witness :
    (forward (.templ 5 2 false) (.inst (.user 1) [.atom 0, .atom 1])
        = some (.inst (.templ 5 2 false) [.atom 0, .atom 1])
      ∧ (forward (.templ 5 2 false) (.inst (.user 1) [.atom 0, .atom 1])).bind
          extract
        = extract (.inst (.user 1) [.atom 0, .atom 1]))
    ∧ forward (.templ 5 2 false) (pack [.atom 0]) = none
    ∧ extract (.inst (.user 1) [.atom 0, .atom 1])
      = some (pack [.atom 0, .atom 1]) :=
  ⟨(forward_changes_construct_only (.templ 5 2 false) (.user 1)
      [.atom 0, .atom 1]).2.1 (by decide),
    (forward_changes_construct_only (.templ 5 2 false) .pack
      [.atom 0]).2.2.1 (by decide),
    (forward_changes_construct_only (.templ 5 2 false) (.user 1)
      [.atom 0, .atom 1]).2.2.2.2⟩

/-! ## Predicate combinators -/

theorem fold_and_eq_all (bs : List Bool) :
    fold_and bs = bs.all fun b => b := by
  induction bs with
  | nil => rfl
  | cons b bs ih =>
    cases bs with
    | nil => simp [fold_and]
    | cons b2 bs2 => simp [fold_and, ih]

theorem fold_or_eq_any (bs : List Bool) :
    fold_or bs = bs.any fun b => b := by
  induction bs with
  | nil => rfl
  | cons b bs ih =>
    cases bs with
    | nil => simp [fold_or]
    | cons b2 bs2 => simp [fold_or, ih]

/-- C16. `conjunction<P1..Pn>` applied to an argument list is true exactly
when every `Pi` is true on it, `disjunction<P1..Pn>` is true exactly when at
least one `Pi` is true on it; with no predicate at all the conjunction is
true and the disjunction is false on any arguments. -/
theorem conjunction_disjunction_meaning (PS : List (List Ty → Bool))
    (ts : List Ty) :
    (conjunction PS ts = true ↔ ∀ P ∈ PS, P ts = true)
    ∧ (disjunction PS ts = true ↔ ∃ P ∈ PS, P ts = true)
    ∧ conjunction [] ts = true
    ∧ disjunction [] ts = false := by
  refine ⟨?_, ?_, ?_, ?_⟩
  · simp [conjunction, fold_and_eq_all, List.all_eq_true]
  · simp [disjunction, fold_or_eq_any, List.any_eq_true]
  · simp [conjunction, fold_and]
  · simp [disjunction, fold_or]

/-! ## Callable signatures -/

theorem callable_helper_primary (callOp : Ty → Option Ty) (n : Nat) {t : Ty}
    (ht : t.isCallableShape = false) :
    callable_helper callOp (n + 1) t
      = (callOp t).bind (callable_helper callOp n) := by
  cases t <;> simp_all [callable_helper, Ty.isCallableShape]

theorem callable_helper_zero (callOp : Ty → Option Ty) {t : Ty}
    (ht : t.isCallableShape = false) :
    callable_helper callOp 0 t = none := by
  cases t <;> simp_all [callable_helper, Ty.isCallableShape]

theorem callable_helper_shape (callOp : Ty → Option Ty) (n : Nat) {t : Ty}
    (ht : t.isCallableShape = true) :
    ∃ r args, callable_helper callOp n t = some (.fn r args) := by
  cases t <;> simp_all [callable_helper, Ty.isCallableShape]

theorem callable_helper_shape_depth (callOp : Ty → Option Ty) (n m : Nat)
    {t : Ty} (ht : t.isCallableShape = true) :
    callable_helper callOp n t = callable_helper callOp m t := by
  cases t <;> cases n <;> cases m <;>
    simp_all [callable_helper, Ty.isCallableShape]

/-- A resolved `callable_helper` is a function type. -/
theorem callable_helper_is_fn (callOp : Ty → Option Ty) (n : Nat) :
    ∀ t u, callable_helper callOp n t = some u → ∃ r args, u = .fn r args := by
  induction n with
  | zero =>
    intro t u h
    by_cases ht : t.isCallableShape = true
    · obtain ⟨r, args, hr⟩ := callable_helper_shape callOp 0 ht
      rw [hr] at h
      exact ⟨r, args, (Option.some.inj h).symm⟩
    · simp [callable_helper_zero callOp (by simpa using ht)] at h
  | succ n ih =>
    intro t u h
    by_cases ht : t.isCallableShape = true
    · obtain ⟨r, args, hr⟩ := callable_helper_shape callOp (n + 1) ht
      rw [hr] at h
      exact ⟨r, args, (Option.some.inj h).symm⟩
    · rw [callable_helper_primary callOp n (by simpa using ht)] at h
      cases hop : callOp t with
      | none => simp [hop] at h
      | some v =>
        rw [hop] at h
        exact ih v u h

/-- A resolved `callable_helper` stays resolved, to the same type, at every
greater depth. -/
theorem callable_helper_mono (callOp : Ty → Option Ty) (n : Nat) :
    ∀ t u, callable_helper callOp n t = some u →
      ∀ m, n ≤ m → callable_helper callOp m t = some u := by
  induction n with
  | zero =>
    intro t u h m _
    by_cases ht : t.isCallableShape = true
    · rw [← callable_helper_shape_depth callOp 0 m ht]; exact h
    · simp [callable_helper_zero callOp (by simpa using ht)] at h
  | succ n ih =>
    intro t u h m hm
    by_cases ht : t.isCallableShape = true
    · rw [← callable_helper_shape_depth callOp (n + 1) m ht]; exact h
    · have ht2 : t.isCallableShape = false := by simpa using ht
      obtain ⟨k, rfl⟩ : ∃ k, m = k + 1 := ⟨m - 1, by omega⟩
      rw [callable_helper_primary callOp n ht2] at h
      rw [callable_helper_primary callOp k ht2]
      cases hop : callOp t with
      | none => simp [hop] at h
      | some v =>
        rw [hop] at h
        simpa using ih v u h k (by omega)

theorem callable_return_type_helper_primary (callOp : Ty → Option Ty)
    (n : Nat) {t : Ty} (ht : ∀ r args, t ≠ .fn r args) :
    callable_return_type_helper callOp (n + 1) t
      = (callable callOp n t).bind (callable_return_type_helper callOp n) := by
  cases t with
  | fn r args => exact absurd rfl (ht r args)
  | _ => simp [callable_return_type_helper]

theorem callable_args_helper_primary (callOp : Ty → Option Ty)
    (n : Nat) {t : Ty} (ht : ∀ r args, t ≠ .fn r args) :
    callable_args_helper callOp (n + 1) t
      = (callable callOp n t).bind (callable_args_helper callOp n) := by
  cases t with
  | fn r args => exact absurd rfl (ht r args)
  | _ => simp [callable_args_helper]

theorem callable_return_type_helper_fn (callOp : Ty → Option Ty) (n : Nat)
    (r : Ty) (args : List Ty) :
    callable_return_type_helper callOp n (.fn r args) = some r := by
  cases n <;> simp [callable_return_type_helper]

theorem callable_args_helper_fn (callOp : Ty → Option Ty) (n : Nat)
    (r : Ty) (args : List Ty) :
    callable_args_helper callOp n (.fn r args) = some (pack args) := by
  cases n <;> simp [callable_args_helper]

theorem callable_helper_fn (callOp : Ty → Option Ty) (n : Nat)
    (r : Ty) (args : List Ty) :
    callable_helper callOp n (.fn r args) = some (.fn r args) := by
  cases n <;> simp [callable_helper]

/-- The projections of a type whose `callable` resolves to `R(Args...)` at
depth `n` are `R` and `pack<Args...>` at every greater depth. -/
theorem callable_projections (callOp : Ty → Option Ty) (n : Nat) (t r : Ty)
    (args : List Ty) (h : callable callOp n t = some (.fn r args)) (m : Nat)
    (hm : n < m) :
    callable_return_type callOp m t = some r
    ∧ callable_args callOp m t = some (pack args) := by
  obtain ⟨k, rfl⟩ : ∃ k, m = k + 1 := ⟨m - 1, by omega⟩
  have hk : callable callOp k t = some (.fn r args) :=
    callable_helper_mono callOp n t _ h k (by omega)
  by_cases ht : ∃ r2 args2, t = .fn r2 args2
  · obtain ⟨r2, args2, rfl⟩ := ht
    have h2 : callable callOp n (.fn r2 args2) = some (.fn r2 args2) :=
      callable_helper_fn callOp n r2 args2
    rw [h2] at h
    injection h with h3
    injection h3 with hr ha
    subst hr; subst ha
    exact ⟨callable_return_type_helper_fn callOp _ _ _,
      callable_args_helper_fn callOp _ _ _⟩
  · have ht2 : ∀ r2 args2, t ≠ .fn r2 args2 :=
      fun r2 args2 e => ht ⟨r2, args2, e⟩
    constructor
    · simp [callable_return_type, callable_return_type_helper_primary callOp k ht2,
        hk, callable_return_type_helper_fn]
    · simp [callable_args, callable_args_helper_primary callOp k ht2, hk,
        callable_args_helper_fn]

/-- C15. The four callable shapes normalize identically: `callable` of
`R(Args...)`, of `R(U::*)(Args...)`, of `R(U::*)(Args...) const` and of a
function object `T` whose `&T::operator()` has one of the two member shapes
is `R(Args...)`, and on each of the four `callable_return_type` is `R` and
`callable_args` is `pack<Args...>`, at every depth that leaves room for the
primary templates involved. -/
theorem callable_four_shapes (callOp : Ty → Option Ty) (n : Nat)
    (R U T : Ty) (Args : List Ty)
    (hT : T.isCallableShape = false)
    (hop : callOp T = some (.memfn R T Args)
      ∨ callOp T = some (.cmemfn R T Args)) :
    (callable callOp n (.fn R Args) = some (.fn R Args)
      ∧ callable callOp n (.memfn R U Args) = some (.fn R Args)
      ∧ callable callOp n (.cmemfn R U Args) = some (.fn R Args)
      ∧ callable callOp (n + 1) T = some (.fn R Args))
    ∧ (callable_return_type callOp n (.fn R Args) = some R
      ∧ callable_return_type callOp (n + 1) (.memfn R U Args) = some R
      ∧ callable_return_type callOp (n + 1) (.cmemfn R U Args) = some R
      ∧ callable_return_type callOp (n + 2) T = some R)
    ∧ (callable_args callOp n (.fn R Args) = some (pack Args)
      ∧ callable_args callOp (n + 1) (.memfn R U Args) = some (pack Args)
      ∧ callable_args callOp (n + 1) (.cmemfn R U Args) = some (pack Args)
      ∧ callable_args callOp (n + 2) T = some (pack Args)) := by
  have h1 : callable callOp n (.fn R Args) = some (.fn R Args) :=
    callable_helper_fn callOp n R Args
  have h2 : callable callOp n (.memfn R U Args) = some (.fn R Args) := by
    cases n <;> simp [callable, callable_helper]
  have h3 : callable callOp n (.cmemfn R U Args) = some (.fn R Args) := by
    cases n <;> simp [callable, callable_helper]
  have h4 : callable callOp (n + 1) T = some (.fn R Args) := by
    rcases hop with hop | hop
    · cases n <;>
        simp [callable, callable_helper_primary callOp _ hT, hop,
          callable_helper]
    · cases n <;>
        simp [callable, callable_helper_primary callOp _ hT, hop,
          callable_helper]
  have p2 := callable_projections callOp n _ R Args h2 (n + 1) (by omega)
  have p3 := callable_projections callOp n _ R Args h3 (n + 1) (by omega)
  have p4 := callable_projections callOp (n + 1) _ R Args h4 (n + 2) (by omega)
  exact ⟨⟨h1, h2, h3, h4⟩,
    ⟨callable_return_type_helper_fn callOp n R Args, p2.1, p3.1, p4.1⟩,
    ⟨callable_args_helper_fn callOp n R Args, p2.2, p3.2, p4.2⟩⟩

/-- Witness of C15 at `int(double, char)`, with `atom 0`, `atom 1`, `atom 2`
for `int`, `double`, `char`, the class `atom 3` and the function object
`atom 4` whose call operator is const. -/
theorem callable_four_shapes_witness :
    (callable (fun t => if t = .atom 4
          then some (.cmemfn (.atom 0) (.atom 4) [.atom 1, .atom 2]) else none)
        0 (.fn (.atom 0) [.atom 1, .atom 2])
        = some (.fn (.atom 0) [.atom 1, .atom 2])
      ∧ callable (fun t => if t = .atom 4
          then some (.cmemfn (.atom 0) (.atom 4) [.atom 1, .atom 2]) else none)
        0 (.memfn (.atom 0) (.atom 3) [.atom 1, .atom 2])
        = some (.fn (.atom 0) [.atom 1, .atom 2])
      ∧ callable (fun t => if t = .atom 4
          then some (.cmemfn (.atom 0) (.atom 4) [.atom 1, .atom 2]) else none)
        0 (.cmemfn (.atom 0) (.atom 3) [.atom 1, .atom 2])
        = some (.fn (.atom 0) [.atom 1, .atom 2])
      ∧ callable (fun t => if t = .atom 4
          then some (.cmemfn (.atom 0) (.atom 4) [.atom 1, .atom 2]) else none)
        (0 + 1) (.atom 4)
        = some (.fn (.atom 0) [.atom 1, .atom 2]))
    ∧ (callable_return_type (fun t => if t = .atom 4
          then some (.cmemfn (.atom 0) (.atom 4) [.atom 1, .atom 2]) else none)
        0 (.fn (.atom 0) [.atom 1, .atom 2]) = some (.atom 0)
      ∧ callable_return_type (fun t => if t = .atom 4
          then some (.cmemfn (.atom 0) (.atom 4) [.atom 1, .atom 2]) else none)
        (0 + 1) (.memfn (.atom 0) (.atom 3) [.atom 1, .atom 2]) = some (.atom 0)
      ∧ callable_return_type (fun t => if t = .atom 4
          then some (.cmemfn (.atom 0) (.atom 4) [.atom 1, .atom 2]) else none)
        (0 + 1) (.cmemfn (.atom 0) (.atom 3) [.atom 1, .atom 2]) = some (.atom 0)
      ∧ callable_return_type (fun t => if t = .atom 4
          then some (.cmemfn (.atom 0) (.atom 4) [.atom 1, .atom 2]) else none)
        (0 + 2) (.atom 4) = some (.atom 0))
    ∧ (callable_args (fun t => if t = .atom 4
          then some (.cmemfn (.atom 0) (.atom 4) [.atom 1, .atom 2]) else none)
        0 (.fn (.atom 0) [.atom 1, .atom 2]) = some (pack [.atom 1, .atom 2])
      ∧ callable_args (fun t => if t = .atom 4
          then some (.cmemfn (.atom 0) (.atom 4) [.atom 1, .atom 2]) else none)
        (0 + 1) (.memfn (.atom 0) (.atom 3) [.atom 1, .atom 2])
        = some (pack [.atom 1, .atom 2])
      ∧ callable_args (fun t => if t = .atom 4
          then some (.cmemfn (.atom 0) (.atom 4) [.atom 1, .atom 2]) else none)
        (0 + 1) (.cmemfn (.atom 0) (.atom 3) [.atom 1, .atom 2])
        = some (pack [.atom 1, .atom 2])
      ∧ callable_args (fun t => if t = .atom 4
          then some (.cmemfn (.atom 0) (.atom 4) [.atom 1, .atom 2]) else none)
        (0 + 2) (.atom 4) = some (pack [.atom 1, .atom 2])) :=
  callable_four_shapes (fun t => if t = .atom 4
      then some (.cmemfn (.atom 0) (.atom 4) [.atom 1, .atom 2]) else none)
    0 (.atom 0) (.atom 3) (.atom 4) [.atom 1, .atom 2] (by decide) (by decide)

/-- C20. Callable normalization is a fixed point after one application: when
`callable<T>` resolves, it is a function type `R(Args...)`, `callable` of it
is itself at any depth, and `callable_return_type` and `callable_args` of it
agree with those of `T`, which resolve, at every depth beyond the one at
which `callable<T>` resolved. -/
theorem callable_fixed_point (callOp : Ty → Option Ty) (n : Nat) (T V : Ty)
    (h : callable callOp n T = some V) :
    (∃ R Args, V = .fn R Args)
    ∧ (∀ m, callable callOp m V = some V)
    ∧ (∀ m, (callable callOp n T).bind (callable callOp m)
        = callable callOp n T)
    ∧ (∀ m, n < m →
        (callable callOp n T).bind (callable_return_type callOp m)
          = callable_return_type callOp m T
        ∧ (callable callOp n T).bind (callable_args callOp m)
          = callable_args callOp m T
        ∧ (callable_return_type callOp m T).isSome = true
        ∧ (callable_args callOp m T).isSome = true) := by
  obtain ⟨R, Args, hV⟩ := callable_helper_is_fn callOp n T V h
  subst hV
  have hfix : ∀ m, callable callOp m (.fn R Args) = some (.fn R Args) :=
    fun m => callable_helper_fn callOp m R Args
  refine ⟨⟨R, Args, rfl⟩, hfix, ?_, ?_⟩
  · intro m
    simp [h, hfix m]
  · intro m hm
    have hp := callable_projections callOp n T R Args h m hm
    have hr : callable_return_type callOp m (.fn R Args) = some R :=
      callable_return_type_helper_fn callOp m R Args
    have ha : callable_args callOp m (.fn R Args) = some (pack Args) :=
      callable_args_helper_fn callOp m R Args
    simp [h, hp.1, hp.2, hr, ha]

/-- Witness of C20 at a function object `atom 4` whose call operator has the
type `atom 0 (atom 4::*)(atom 1)`. -/
theorem callable_fixed_point_witness :
    (∃ R Args, Ty.fn (.atom 0) [.atom 1] = .fn R Args)
    ∧ (∀ m, callable (fun t => if t = .atom 4
          then some (.memfn (.atom 0) (.atom 4) [.atom 1]) else none)
        m (.fn (.atom 0) [.atom 1]) = some (.fn (.atom 0) [.atom 1]))
    ∧ (∀ m, (callable (fun t => if t = .atom 4
          then some (.memfn (.atom 0) (.atom 4) [.atom 1]) else none)
        1 (.atom 4)).bind
          (callable (fun t => if t = .atom 4
            then some (.memfn (.atom 0) (.atom 4) [.atom 1]) else none) m)
        = callable (fun t => if t = .atom 4
          then some (.memfn (.atom 0) (.atom 4) [.atom 1]) else none)
        1 (.atom 4))
    ∧ (∀ m, 1 < m →
        (callable (fun t => if t = .atom 4
          then some (.memfn (.atom 0) (.atom 4) [.atom 1]) else none)
          1 (.atom 4)).bind
            (callable_return_type (fun t => if t = .atom 4
              then some (.memfn (.atom 0) (.atom 4) [.atom 1]) else none) m)
          = callable_return_type (fun t => if t = .atom 4
              then some (.memfn (.atom 0) (.atom 4) [.atom 1]) else none)
            m (.atom 4)
        ∧ (callable (fun t => if t = .atom 4
          then some (.memfn (.atom 0) (.atom 4) [.atom 1]) else none)
          1 (.atom 4)).bind
            (callable_args (fun t => if t = .atom 4
              then some (.memfn (.atom 0) (.atom 4) [.atom 1]) else none) m)
          = callable_args (fun t => if t = .atom 4
              then some (.memfn (.atom 0) (.atom 4) [.atom 1]) else none)
            m (.atom 4)
        ∧ (callable_return_type (fun t => if t = .atom 4
              then some (.memfn (.atom 0) (.atom 4) [.atom 1]) else none)
            m (.atom 4)).isSome = true
        ∧ (callable_args (fun t => if t = .atom 4
              then some (.memfn (.atom 0) (.atom 4) [.atom 1]) else none)
            m (.atom 4)).isSome = true) :=
  callable_fixed_point (fun t => if t = .atom 4
      then some (.memfn (.atom 0) (.atom 4) [.atom 1]) else none)
    1 (.atom 4) (.fn (.atom 0) [.atom 1]) (by decide)

/-! ## Deduplication as a filter, filtering of mixed input -/

theorem keptAt_cons_succ (x : Ty) (xs : List Ty) (i : Nat) :
    keptAt (x :: xs) (i + 1) = keptAt xs i := by
  simp [keptAt]

theorem filterByTail_cons (x : Ty) (xs : List Ty) :
    filterByTail (x :: xs)
      = (if contains x xs = some false then [x] else []) ++ filterByTail xs := by
  have hcomp : (keptAt (x :: xs)) ∘ Nat.succ = keptAt xs := by
    funext i
    exact keptAt_cons_succ x xs i
  have h0 : keptAt (x :: xs) 0
      = if contains x xs = some false then some x else none := by
    simp [keptAt]
  simp only [filterByTail, List.length_cons, List.range_succ_eq_map,
    List.filterMap_cons, List.filterMap_map, hcomp, h0]
  by_cases hc : contains x xs = some false <;> simp [hc]

theorem filterByTail_eq_dedup (xs : List Ty) :
    (∀ x ∈ xs, x.isPack = false) → filterByTail xs = xs.dedup := by
  induction xs with
  | nil => intro _; simp [filterByTail]
  | cons t ts ih =>
    intro h
    have ht : t.isPack = false := h t (List.mem_cons_self t ts)
    have hts : ∀ x ∈ ts, x.isPack = false :=
      fun x hx => h x (List.mem_cons_of_mem t hx)
    by_cases hm : t ∈ ts
    · simp [filterByTail_cons, contains_eq ht, splice_of_no_pack hts, ih hts,
        hm, List.dedup_cons_of_mem hm]
    · simp [filterByTail_cons, contains_eq ht, splice_of_no_pack hts, ih hts,
        hm, List.dedup_cons_of_not_mem hm]

/-- C17. For a type sequence `s` whose elements are not type sequences,
`distinct<s>` is the stable filter of `s` driven by `contains` against the
remaining tail: the element at position `i` is kept exactly when `contains`
of it against the elements after position `i` is false, that is when it
occurs at no later position, and the kept elements stand in their original
order. -/
theorem distinct_is_tail_filter (s : List Ty)
    (hs : ∀ x ∈ s, x.isPack = false) :
    distinct [pack s] = some (pack (filterByTail s))
    ∧ (∀ (i : Nat) (x : Ty), s[i]? = some x →
        (keptAt s i = some x ↔ contains x (s.drop (i + 1)) = some false)
        ∧ (keptAt s i = none ↔ contains x (s.drop (i + 1)) ≠ some false)
        ∧ (contains x (s.drop (i + 1)) = some false ↔ x ∉ s.drop (i + 1)))
    ∧ (filterByTail s).Sublist s := by
  have h1 : ∀ x ∈ splice [pack s], x.isPack = false := by
    simpa [splice, contribution] using hs
  refine ⟨?_, ?_, ?_⟩
  · rw [distinct_eq _ h1, filterByTail_eq_dedup s hs]
    simp [splice, contribution]
  · intro i x hx
    have hxs : x ∈ s := List.getElem?_mem hx
    have hxp : x.isPack = false := hs x hxs
    have hdrop : ∀ y ∈ s.drop (i + 1), y.isPack = false :=
      fun y hy => hs y (List.mem_of_mem_drop hy)
    refine ⟨?_, ?_, ?_⟩
    · by_cases hc : contains x (s.drop (i + 1)) = some false <;>
        simp [keptAt, hx, hc]
    · by_cases hc : contains x (s.drop (i + 1)) = some false <;>
        simp [keptAt, hx, hc]
    · simp [contains_eq hxp, splice_of_no_pack hdrop]
  · rw [filterByTail_eq_dedup s hs]
    exact List.dedup_sublist s

/-- Witness of C17 at `[A, B, A, C, B]`. -/
theorem distinct_is_tail_filter_witness :
    distinct [pack [.atom 0, .atom 1, .atom 0, .atom 2, .atom 1]]
      = some (pack (filterByTail
          [.atom 0, .atom 1, .atom 0, .atom 2, .atom 1]))
    ∧ (∀ (i : Nat) (x : Ty),
        [Ty.atom 0, .atom 1, .atom 0, .atom 2, .atom 1][i]? = some x →
        (keptAt [.atom 0, .atom 1, .atom 0, .atom 2, .atom 1] i = some x
          ↔ contains x
              ([Ty.atom 0, .atom 1, .atom 0, .atom 2, .atom 1].drop (i + 1))
            = some false)
        ∧ (keptAt [.atom 0, .atom 1, .atom 0, .atom 2, .atom 1] i = none
          ↔ contains x
              ([Ty.atom 0, .atom 1, .atom 0, .atom 2, .atom 1].drop (i + 1))
            ≠ some false)
        ∧ (contains x
              ([Ty.atom 0, .atom 1, .atom 0, .atom 2, .atom 1].drop (i + 1))
            = some false
          ↔ x ∉ [Ty.atom 0, .atom 1, .atom 0, .atom 2, .atom 1].drop (i + 1)))
    ∧ (filterByTail [.atom 0, .atom 1, .atom 0, .atom 2, .atom 1]).Sublist
        [.atom 0, .atom 1, .atom 0, .atom 2, .atom 1] :=
  distinct_is_tail_filter [.atom 0, .atom 1, .atom 0, .atom 2, .atom 1]
    (by decide)

/-- C18. For a type sequence `s` whose elements are not type sequences,
`distinct<s>` resolves to a sequence in which no type occurs twice and in
which a type occurs exactly when it occurs in `s`. -/
theorem distinct_removes_duplicates_only (s : List Ty)
    (hs : ∀ x ∈ s, x.isPack = false) :
    ∃ r, distinct [pack s] = some (pack r)
      ∧ r.Nodup
      ∧ ∀ x, x ∈ r ↔ x ∈ s := by
  have h1 : ∀ x ∈ splice [pack s], x.isPack = false := by
    simpa [splice, contribution] using hs
  refine ⟨s.dedup, ?_, List.nodup_dedup s, fun x => List.mem_dedup⟩
  rw [distinct_eq _ h1]
  simp [splice, contribution]

/-- Witness of C18 at `[A, A, B, A]`. -/
theorem distinct_removes_duplicates_only_witness :
    ∃ r, distinct [pack [.atom 0, .atom 0, .atom 1, .atom 0]] = some (pack r)
      ∧ r.Nodup
      ∧ ∀ x, x ∈ r ↔ x ∈ [Ty.atom 0, .atom 0, .atom 1, .atom 0] :=
  distinct_removes_duplicates_only [.atom 0, .atom 0, .atom 1, .atom 0]
    (by decide)

/-- The exact result of `filter_helper` on any element list: each kept
element is put back through `prepend`, which flattens it. -/
theorem filter_helper_packs_splice (P : Ty → Bool) (xs : List Ty) :
    filter_helper_packs P xs = some (pack (splice (xs.filter P))) := by
  induction xs with
  | nil => simp [filter_helper_packs, splice]
  | cons t ts ih =>
    by_cases hp : P t = true
    · simp [filter_helper_packs, ih, prepend_pack_single, hp, splice]
    · simp [filter_helper_packs, ih, prepend_pack_single, hp]

/-- C19. At the failing input: `pack<pack<A, B>>` flattens to the one element
`pack<A, B>`, and `filter` with a predicate true on it resolves to
`pack<A, B>`, two elements on neither of which the predicate was evaluated,
where the claim has the kept element `pack<A, B>` as one unchanged element
and a result no longer than the flattened input. -/
theorem filter_splices_kept_sequence :
    unpack [pack [pack [.atom 0, .atom 1]]] = pack [pack [.atom 0, .atom 1]]
    ∧ filter (fun _ => true) [pack [pack [.atom 0, .atom 1]]]
      = some (pack [.atom 0, .atom 1])
    ∧ filter (fun _ => true) [pack [pack [.atom 0, .atom 1]]]
      ≠ some (pack (([pack [.atom 0, .atom 1]] : List Ty).filter
          (fun _ => true)))
    ∧ filter (fun t => t.isPack) [pack [pack [.atom 0, .atom 1]]]
      = some (pack [.atom 0, .atom 1])
    ∧ ([pack [.atom 0, .atom 1]] : List Ty).length
      < ([.atom 0, .atom 1] : List Ty).length := by
  decide


end Vera
